import Mathlib

/-!
# Verification of the `licore` ELF64 core-dump decoder

A shallow embedding of the Rust sources (`src/read.rs`, `src/util.rs`,
`src/ctypes.rs`, `src/elf.rs`, `src/core.rs`) of the `licore-rs` library,
together with proofs about the natural-language specification's claims.

Modelling conventions:
* A byte buffer is a `List (Fin 256)`; all multi-byte scalars are read
  little-endian, exactly as the `structview` field types and the `ReadExt`
  readers do in the source.
* Machine integers are `Nat` with an explicit `% 2 ^ 64` wherever the Rust
  code performs arithmetic that can wrap (`usize` addition in
  `ProgramHeader::get_data` and `extract_segments`, `u64` multiplication in
  `extract_file_map`).  This models the release-profile two's-complement
  wrapping semantics of integer overflow.
* Rust panics (in this code base: the `%`-by-zero in `Elf64_Phdr::verify`)
  are a third outcome next to `Ok`/`Err`, modelled by `PResult.panicked`.
* Error messages are `format!` strings in the source; they are modelled by
  `ParseError` constructors carrying the same distinguishing data (the
  formatted numeric values that do not distinguish error kinds are kept
  where cheap and elided where not needed to tell two messages apart).
* Allocation behaviour (`Vec::with_capacity`, out-of-memory aborts) is not
  modelled; it does not affect any decode result below.
-/

namespace Licore

set_option maxRecDepth 100000

/-- A single byte of the input buffer. -/
abbrev Byte := Fin 256

/-- A byte buffer (a Rust `&[u8]`). -/
abbrev Bytes := List Byte

/-- `2 ^ 64`, the modulus of `u64`/`usize` arithmetic on the x86-64 target. -/
def U64MOD : Nat := 2 ^ 64

/-- Little-endian value of a byte list (first byte least significant).
This is what `u64::from_le_bytes` and the `structview` `*_le` field types
compute. -/
def leNat : Bytes → Nat
  | [] => 0
  | b :: rest => b.val + 256 * leNat rest

/-- The `width`-byte little-endian scalar found at byte offset `off`. -/
def lePick (d : Bytes) (off width : Nat) : Nat := leNat ((d.drop off).take width)

/-- The `u64` at byte offset `off` (little endian). -/
def u64At (d : Bytes) (off : Nat) : Nat := lePick d off 8

/-- The `u32` at byte offset `off` (little endian). -/
def u32At (d : Bytes) (off : Nat) : Nat := lePick d off 4

/-- The `u16` at byte offset `off` (little endian). -/
def u16At (d : Bytes) (off : Nat) : Nat := lePick d off 2

/-- `usize` addition on the 64-bit target (wrapping semantics). -/
def usizeAdd (a b : Nat) : Nat := (a + b) % U64MOD

/-- `u64` multiplication (wrapping semantics). -/
def u64Mul (a b : Nat) : Nat := (a * b) % U64MOD

/-- Reinterpret a `u32` bit pattern as the Rust `i32` it denotes. -/
def toI32 (v : Nat) : Int := if v < 2 ^ 31 then (v : Int) else (v : Int) - 2 ^ 32

/-- Reinterpret a byte as the Rust `i8` it denotes. -/
def toI8 (v : Nat) : Int := if v < 2 ^ 7 then (v : Int) else (v : Int) - 2 ^ 8

/-- `src/read.rs`: `read_slice` — borrow the next `n` bytes and advance, or
fail (`"not enough data"`) if fewer than `n` remain. `none` stands for the
reader error. -/
def readSlice (n : Nat) (data : Bytes) : Option (Bytes × Bytes) :=
  if n ≤ data.length then some (data.take n, data.drop n) else none

/-- `src/read.rs`: `read_u64` — read a little-endian `u64` and advance. -/
def readU64 (data : Bytes) : Option (Nat × Bytes) :=
  (readSlice 8 data).map fun p => (leNat p.1, p.2)

/-- Rust's `<[u8]>::split(|&b| b == 0)` collected into a list: the slice cut
at every NUL byte.  It always yields at least one token, and a trailing NUL
yields a trailing empty token. -/
def splitOnZero : Bytes → List Bytes
  | [] => [[]]
  | b :: rest =>
    if b = 0 then [] :: splitOnZero rest
    else
      match splitOnZero rest with
      | t :: ts => (b :: t) :: ts
      | [] => [[b]]

/-- `src/util.rs`: `trim_c_string` — the first NUL-separated token, i.e. the
prefix of `s` up to (not including) the first NUL byte. -/
def trim_c_string (s : Bytes) : Bytes := ((splitOnZero s).head?).getD []

/-- `src/elf.rs`: the normalized program header produced from an
`Elf64_Phdr` (the `From<&Elf64_Phdr> for ProgramHeader` impl; `u64`→`usize`
casts are the identity on the 64-bit target). -/
structure ProgramHeader where
  type_ : Nat
  file_offset : Nat
  file_size : Nat
  memory_address : Nat
  memory_size : Nat
deriving DecidableEq, Repr

/-- `src/error.rs` / the `format!` calls across the sources: the distinct
parse-error messages, one constructor per message shape.  Constructor
arguments carry the data interpolated into the message where two messages of
the same shape must stay distinguishable. -/
inductive ParseError where
  /-- `"{TypeName}: {structview error}"` — a fixed-layout record did not fit
  in the remaining bytes (the spec's `"<TypeName>: not enough data"`). -/
  | notEnoughData (typeName : String)
  /-- `"{TypeName}: invalid {field} value: got …, expected …"` from
  `ctypes.rs::expect` (formatted got/expected values elided). -/
  | invalidValue (typeName field : String)
  /-- `"Elf64_Phdr: unaligned p_vaddr value: {v:#x}"`. -/
  | unalignedVaddr (v : Nat)
  /-- `"Elf64_Phdr: unaligned p_paddr value: {v:#x}"`. -/
  | unalignedPaddr (v : Nat)
  /-- `"program header table offset is out of bounds: {off:#x}"`. -/
  | phOffsetOutOfBounds (off : Nat)
  /-- `"program header has invalid file range: {ph:?}"`. -/
  | invalidFileRange (ph : ProgramHeader)
  /-- `"note: not enough data"` (reader failure inside `parse_note`). -/
  | noteTruncated
  /-- `"segment file size ({fs:#x}) differs from memory size ({ms:#x})"`. -/
  | sizeMismatch (fileSize memSize : Nat)
  /-- `"missing note: {which}"`. -/
  | missingNote (which : String)
  /-- `"NT_FILE note: not enough data"` (reader failure inside
  `extract_file_map`). -/
  | ntFileTruncated
  /-- `"NT_FILE note contains too few paths"`. -/
  | tooFewPaths
deriving DecidableEq, Repr

/-- The observable outcome of running a fallible Rust function: a panic, an
`Err(ParseError)`, or an `Ok` value. -/
inductive PResult (α : Type) where
  | panicked
  | error (e : ParseError)
  | ok (a : α)
deriving DecidableEq, Repr

/-- `Ok`-map on an outcome. -/
def PResult.map {α β : Type} (f : α → β) : PResult α → PResult β
  | .panicked => .panicked
  | .error e => .error e
  | .ok a => .ok (f a)

/-- Whether the outcome is an `Ok`. -/
def PResult.isOk {α : Type} : PResult α → Bool
  | .ok _ => true
  | _ => false

/-- `Ok`-map on an `Except` result. -/
def emap {α β : Type} (f : α → β) : Except ParseError α → Except ParseError β
  | .error e => .error e
  | .ok a => .ok (f a)

instance {ε α : Type} [DecidableEq ε] [DecidableEq α] : DecidableEq (Except ε α)
  | .ok x, .ok y =>
    if h : x = y then .isTrue (by rw [h]) else .isFalse (by simp [h])
  | .error e, .error f =>
    if h : e = f then .isTrue (by rw [h]) else .isFalse (by simp [h])
  | .ok _, .error _ => .isFalse (by simp)
  | .error _, .ok _ => .isFalse (by simp)

/-! ## `src/ctypes.rs`: the fixed C-layout records

Each `parse` below models `CType::parse` for the given type: `structview`
views the prefix of the byte slice as the record (failing when the slice is
shorter than the record) and `verify` checks the type-specific invariants.
Fields hold the little-endian value of their byte range; signedness is
applied at the use sites exactly where the source calls `to_int` on a
signed field type. -/

/-- Size and field offsets follow the `#[repr(C)]` struct in `ctypes.rs`
(all `structview` field types are unaligned byte arrays, so fields are
packed at the declared offsets; the only padding is the explicit `_pad`
arrays). -/
structure Elf64_Ehdr where
  e_ident : Bytes
  e_type : Nat
  e_machine : Nat
  e_version : Nat
  e_entry : Nat
  e_phoff : Nat
  e_shoff : Nat
  e_flags : Nat
  e_ehsize : Nat
  e_phentsize : Nat
  e_phnum : Nat
  e_shentsize : Nat
  e_shnum : Nat
  e_shstrndx : Nat
deriving DecidableEq, Repr

/-- The ELF magic `b"\x7fELF"`. -/
def elfMagic : Bytes := [0x7f, 0x45, 0x4c, 0x46]

/-- `Elf64_Ehdr::verify`: the identity checks, in source order; the first
failing check's error is returned. -/
def Elf64_Ehdr.verify (h : Elf64_Ehdr) : Except ParseError Unit :=
  if h.e_ident.take 4 ≠ elfMagic then .error (.invalidValue "Elf64_Ehdr" "e_ident.magic")
  else if h.e_ident.getD 4 0 ≠ 2 then .error (.invalidValue "Elf64_Ehdr" "e_ident.class")
  else if h.e_ident.getD 5 0 ≠ 1 then .error (.invalidValue "Elf64_Ehdr" "e_ident.data")
  else if h.e_ident.getD 6 0 ≠ 1 then .error (.invalidValue "Elf64_Ehdr" "e_ident.version")
  else if h.e_ident.getD 7 0 ≠ 0 then .error (.invalidValue "Elf64_Ehdr" "e_ident.osabi")
  else if h.e_type ≠ 4 then .error (.invalidValue "Elf64_Ehdr" "e_type")
  else if h.e_machine ≠ 62 then .error (.invalidValue "Elf64_Ehdr" "e_machine")
  else if h.e_version ≠ 1 then .error (.invalidValue "Elf64_Ehdr" "e_version")
  else if h.e_ehsize ≠ 64 then .error (.invalidValue "Elf64_Ehdr" "e_ehsize")
  else if h.e_phentsize ≠ 56 then .error (.invalidValue "Elf64_Ehdr" "e_phentsize")
  else if h.e_shentsize ≠ 64 then .error (.invalidValue "Elf64_Ehdr" "e_shentsize")
  else .ok ()

/-- `Elf64_Ehdr::parse` (view + verify); the record is 64 bytes. -/
def Elf64_Ehdr.parse (data : Bytes) : Except ParseError Elf64_Ehdr :=
  if 64 ≤ data.length then
    let h : Elf64_Ehdr :=
      { e_ident := data.take 16
        e_type := u16At data 16
        e_machine := u16At data 18
        e_version := u32At data 20
        e_entry := u64At data 24
        e_phoff := u64At data 32
        e_shoff := u64At data 40
        e_flags := u32At data 48
        e_ehsize := u16At data 52
        e_phentsize := u16At data 54
        e_phnum := u16At data 56
        e_shentsize := u16At data 58
        e_shnum := u16At data 60
        e_shstrndx := u16At data 62 }
    match h.verify with
    | .error e => .error e
    | .ok _ => .ok h
  else .error (.notEnoughData "Elf64_Ehdr")

/-- `Elf64_Phdr` (56 bytes). -/
structure Elf64_Phdr where
  p_type : Nat
  p_flags : Nat
  p_offset : Nat
  p_vaddr : Nat
  p_paddr : Nat
  p_filesz : Nat
  p_memsz : Nat
  p_align : Nat
deriving DecidableEq, Repr

/-- `Elf64_Phdr::verify`: the alignment checks.  The source evaluates
`p_vaddr % self.p_align.to_int()` with no zero guard, so `p_align == 0`
makes the Rust `%` operator panic (remainder with a divisor of zero)
before either branch is taken. -/
def Elf64_Phdr.verify (h : Elf64_Phdr) : PResult Unit :=
  if h.p_align = 0 then .panicked
  else if h.p_vaddr % h.p_align ≠ 0 then .error (.unalignedVaddr h.p_vaddr)
  else if h.p_paddr % h.p_align ≠ 0 then .error (.unalignedPaddr h.p_paddr)
  else .ok ()

/-- The `structview` view of one 56-byte program header record. -/
def Elf64_Phdr.view1 (data : Bytes) : Elf64_Phdr :=
  { p_type := u32At data 0
    p_flags := u32At data 4
    p_offset := u64At data 8
    p_vaddr := u64At data 16
    p_paddr := u64At data 24
    p_filesz := u64At data 32
    p_memsz := u64At data 40
    p_align := u64At data 48 }

/-- `view_slice` over `count` consecutive 56-byte records. -/
def Elf64_Phdr.viewN : Nat → Bytes → List Elf64_Phdr
  | 0, _ => []
  | n + 1, data => Elf64_Phdr.view1 data :: Elf64_Phdr.viewN n (data.drop 56)

/-- `CType::parse_many`'s verify loop: each record's `verify` in order; the
first panic or error wins. -/
def Elf64_Phdr.verifyAll : List Elf64_Phdr → PResult Unit
  | [] => .ok ()
  | p :: ps =>
    match p.verify with
    | .panicked => .panicked
    | .error e => .error e
    | .ok _ => Elf64_Phdr.verifyAll ps

/-- `Elf64_Phdr::parse_n`: take the `56 * count`-byte prefix (failing with
`"Elf64_Phdr: not enough data"` if the slice is shorter), view the records
and verify each. -/
def Elf64_Phdr.parse_n (data : Bytes) (count : Nat) : PResult (List Elf64_Phdr) :=
  if 56 * count ≤ data.length then
    let phdrs := Elf64_Phdr.viewN count data
    match Elf64_Phdr.verifyAll phdrs with
    | .panicked => .panicked
    | .error e => .error e
    | .ok _ => .ok phdrs
  else .error (.notEnoughData "Elf64_Phdr")

/-- `Elf64_Nhdr` (12 bytes). -/
structure Elf64_Nhdr where
  n_namesz : Nat
  n_descsz : Nat
  n_type : Nat
deriving DecidableEq, Repr

/-- `Elf64_Nhdr::parse` (default `verify`, so view only). -/
def Elf64_Nhdr.parse (data : Bytes) : Except ParseError Elf64_Nhdr :=
  if 12 ≤ data.length then
    .ok { n_namesz := u32At data 0, n_descsz := u32At data 4, n_type := u32At data 8 }
  else .error (.notEnoughData "Elf64_Nhdr")

/-- `elf_prpsinfo` (136 bytes): offsets 0 `pr_state`, 1 `pr_sname`,
2 `pr_zomb`, 3 `pr_nice`, 4 `_pad1[4]`, 8 `pr_flag`, 16 `pr_uid`,
20 `pr_gid`, 24 `pr_pid`, 28 `pr_ppid`, 32 `pr_pgrp`, 36 `pr_sid`,
40 `pr_fname[16]`, 56 `pr_psargs[80]`.  Scalar fields hold the raw
little-endian bit pattern; the signed (`i8`/`i32_le`) views are taken at
the `to_int` call sites in `core.rs`. -/
structure elf_prpsinfo where
  pr_state : Nat
  pr_sname : Nat
  pr_zomb : Nat
  pr_nice : Nat
  pr_flag : Nat
  pr_uid : Nat
  pr_gid : Nat
  pr_pid : Nat
  pr_ppid : Nat
  pr_pgrp : Nat
  pr_sid : Nat
  pr_fname : Bytes
  pr_psargs : Bytes
deriving DecidableEq, Repr

/-- `elf_prpsinfo::parse` (default `verify`, so view only; 136 bytes). -/
def elf_prpsinfo.parse (data : Bytes) : Except ParseError elf_prpsinfo :=
  if 136 ≤ data.length then
    .ok
      { pr_state := lePick data 0 1
        pr_sname := lePick data 1 1
        pr_zomb := lePick data 2 1
        pr_nice := lePick data 3 1
        pr_flag := u64At data 8
        pr_uid := u32At data 16
        pr_gid := u32At data 20
        pr_pid := u32At data 24
        pr_ppid := u32At data 28
        pr_pgrp := u32At data 32
        pr_sid := u32At data 36
        pr_fname := (data.drop 40).take 16
        pr_psargs := (data.drop 56).take 80 }
  else .error (.notEnoughData "elf_prpsinfo")

/-- `__kernel_old_timeval` (16 bytes). -/
structure kernel_old_timeval where
  tv_sec : Nat
  tv_usec : Nat
deriving DecidableEq, Repr

/-- `elf_siginfo` (12 bytes). -/
structure elf_siginfo where
  si_signo : Nat
  si_code : Nat
  si_errno : Nat
deriving DecidableEq, Repr

/-- `elf_prstatus_common` (112 bytes): offsets 0 `pr_info`, 12 `pr_cursig`,
14 `_pad1[2]`, 16 `pr_sigpend`, 24 `pr_sighold`, 32 `pr_pid`, 36 `pr_ppid`,
40 `pr_pgrp`, 44 `pr_sid`, 48/64/80/96 the four timevals.

Note: the Linux layout places `pr_pid` at offset 32 of the common block
(after `pr_sigpend`/`pr_sighold`). -/
structure elf_prstatus_common where
  pr_info : elf_siginfo
  pr_cursig : Nat
  pr_sigpend : Nat
  pr_sighold : Nat
  pr_pid : Nat
  pr_ppid : Nat
  pr_pgrp : Nat
  pr_sid : Nat
  pr_utime : kernel_old_timeval
  pr_stime : kernel_old_timeval
  pr_cutime : kernel_old_timeval
  pr_cstime : kernel_old_timeval
deriving DecidableEq, Repr

/-- `elf_gregset_t` (27 × u64 = 216 bytes), on-disk slot order as declared
in `ctypes.rs`. -/
structure elf_gregset_t where
  r15 : Nat
  r14 : Nat
  r13 : Nat
  r12 : Nat
  bp : Nat
  bx : Nat
  r11 : Nat
  r10 : Nat
  r9 : Nat
  r8 : Nat
  ax : Nat
  cx : Nat
  dx : Nat
  si : Nat
  di : Nat
  orig_ax : Nat
  ip : Nat
  cs : Nat
  flags : Nat
  sp : Nat
  ss : Nat
  fs_base : Nat
  gs_base : Nat
  ds : Nat
  es : Nat
  fs : Nat
  gs : Nat
deriving DecidableEq, Repr

/-- The `structview` view of an `elf_gregset_t` at the start of `d`. -/
def elf_gregset_t.view1 (d : Bytes) : elf_gregset_t :=
  { r15 := u64At d 0
    r14 := u64At d 8
    r13 := u64At d 16
    r12 := u64At d 24
    bp := u64At d 32
    bx := u64At d 40
    r11 := u64At d 48
    r10 := u64At d 56
    r9 := u64At d 64
    r8 := u64At d 72
    ax := u64At d 80
    cx := u64At d 88
    dx := u64At d 96
    si := u64At d 104
    di := u64At d 112
    orig_ax := u64At d 120
    ip := u64At d 128
    cs := u64At d 136
    flags := u64At d 144
    sp := u64At d 152
    ss := u64At d 160
    fs_base := u64At d 168
    gs_base := u64At d 176
    ds := u64At d 184
    es := u64At d 192
    fs := u64At d 200
    gs := u64At d 208 }

/-- `elf_prstatus` (332 bytes): `common` at 0 (112 bytes), `pr_reg` at 112
(216 bytes), `pr_fpvalid` at 328. -/
structure elf_prstatus where
  common : elf_prstatus_common
  pr_reg : elf_gregset_t
  pr_fpvalid : Nat
deriving DecidableEq, Repr

/-- `elf_prstatus::parse` (default `verify`, so view only; 332 bytes). -/
def elf_prstatus.parse (data : Bytes) : Except ParseError elf_prstatus :=
  if 332 ≤ data.length then
    .ok
      { common :=
          { pr_info :=
              { si_signo := u32At data 0, si_code := u32At data 4, si_errno := u32At data 8 }
            pr_cursig := u16At data 12
            pr_sigpend := u64At data 16
            pr_sighold := u64At data 24
            pr_pid := u32At data 32
            pr_ppid := u32At data 36
            pr_pgrp := u32At data 40
            pr_sid := u32At data 44
            pr_utime := { tv_sec := u64At data 48, tv_usec := u64At data 56 }
            pr_stime := { tv_sec := u64At data 64, tv_usec := u64At data 72 }
            pr_cutime := { tv_sec := u64At data 80, tv_usec := u64At data 88 }
            pr_cstime := { tv_sec := u64At data 96, tv_usec := u64At data 104 } }
        pr_reg := elf_gregset_t.view1 (data.drop 112)
        pr_fpvalid := u32At data 328 }
  else .error (.notEnoughData "elf_prstatus")

/-- `ctypes.rs` constants. -/
def PT_LOAD : Nat := 1
/-- `PT_NOTE = 4`. -/
def PT_NOTE : Nat := 4
/-- `NT_PRSTATUS = 1`. -/
def NT_PRSTATUS : Nat := 1
/-- `NT_PRPSINFO = 3`. -/
def NT_PRPSINFO : Nat := 3
/-- `NT_FILE = 0x4649_4c45`. -/
def NT_FILE : Nat := 0x46494c45

/-! ## `src/elf.rs`: the ELF container layer -/

/-- A parsed note record. -/
structure Note where
  type_ : Nat
  name : Bytes
  desc : Bytes
deriving DecidableEq, Repr

/-- The parsed ELF container. -/
structure Elf where
  program_headers : List ProgramHeader
  notes : List Note
  data : Bytes
deriving DecidableEq, Repr

/-- `From<&Elf64_Phdr> for ProgramHeader`. -/
def ProgramHeader.ofPhdr (p : Elf64_Phdr) : ProgramHeader :=
  { type_ := p.p_type
    file_offset := p.p_offset
    file_size := p.p_filesz
    memory_address := p.p_vaddr
    memory_size := p.p_memsz }

/-- `ProgramHeader::get_data`: `data.get(file_offset .. file_offset + file_size)`
(the `usize` end-of-range addition wraps on overflow; a wrapped range has
`end < start` and `get` returns `None`). -/
def ProgramHeader.get_data (ph : ProgramHeader) (data : Bytes) : Option Bytes :=
  let start := ph.file_offset
  let stop := usizeAdd ph.file_offset ph.file_size
  if start ≤ stop ∧ stop ≤ data.length then some ((data.drop start).take (stop - start))
  else none

/-- `(4 - (n % 4)) % 4`, the note-field padding. -/
def padding4 (n : Nat) : Nat := (4 - n % 4) % 4

/-- `parse_note`: read the 12-byte note header, then name, name padding,
description and description padding, failing with `"note: not enough data"`
on any short read; returns the note and the unconsumed remainder. -/
def parse_note (data : Bytes) : Except ParseError (Note × Bytes) :=
  match Elf64_Nhdr.parse data with
  | .error e => .error e
  | .ok nhdr =>
    let d1 := data.drop 12
    match readSlice nhdr.n_namesz d1 with
    | none => .error .noteTruncated
    | some (name, d2) =>
      match readSlice (padding4 nhdr.n_namesz) d2 with
      | none => .error .noteTruncated
      | some (_, d3) =>
        match readSlice nhdr.n_descsz d3 with
        | none => .error .noteTruncated
        | some (desc, d4) =>
          match readSlice (padding4 nhdr.n_descsz) d4 with
          | none => .error .noteTruncated
          | some (_, d5) =>
            .ok ({ type_ := nhdr.n_type, name := trim_c_string name, desc := desc }, d5)

/-- A successful `read_slice` takes the `n`-byte prefix and leaves the
rest, and can only succeed when `n` bytes are available. -/
theorem readSlice_some {n : Nat} {d s r : Bytes} (h : readSlice n d = some (s, r)) :
    n ≤ d.length ∧ s = d.take n ∧ r = d.drop n := by
  unfold readSlice at h
  split at h
  · simp_all
  · simp at h

/-- A successful `Elf64_Nhdr::parse` needs the 12 header bytes and reads the
three size fields at their offsets. -/
theorem nhdr_parse_ok {data : Bytes} {nh : Elf64_Nhdr}
    (h : Elf64_Nhdr.parse data = .ok nh) :
    12 ≤ data.length ∧ nh.n_namesz = u32At data 0 ∧ nh.n_descsz = u32At data 4 ∧
      nh.n_type = u32At data 8 := by
  unfold Elf64_Nhdr.parse at h
  split at h
  next hlen =>
    simp only [Except.ok.injEq] at h
    subst h
    exact ⟨hlen, rfl, rfl, rfl⟩
  next => simp at h

/-- Full inversion of a successful `parse_note`: the header sizes are the
first three `u32`s, the note fields are the corresponding sub-slices, and
the remainder starts after the padded name and description. -/
theorem parse_note_ok {data : Bytes} {note : Note} {rest : Bytes}
    (h : parse_note data = .ok (note, rest)) :
    12 + u32At data 0 + padding4 (u32At data 0) + u32At data 4 + padding4 (u32At data 4) ≤
        data.length ∧
      note.type_ = u32At data 8 ∧
      note.name = trim_c_string ((data.drop 12).take (u32At data 0)) ∧
      note.desc = (data.drop (12 + u32At data 0 + padding4 (u32At data 0))).take (u32At data 4) ∧
      rest = data.drop (12 + u32At data 0 + padding4 (u32At data 0) + u32At data 4 +
        padding4 (u32At data 4)) := by
  unfold parse_note at h
  cases hh : Elf64_Nhdr.parse data with
  | error e => simp only [hh] at h; exact Except.noConfusion h
  | ok nhdr =>
    obtain ⟨h12, hns, hds, hnt⟩ := nhdr_parse_ok hh
    simp only [hh] at h
    cases h1 : readSlice nhdr.n_namesz (data.drop 12) with
    | none => simp only [h1] at h; exact Except.noConfusion h
    | some p1 =>
      obtain ⟨s1, r1⟩ := p1
      obtain ⟨hb1, hs1, hr1⟩ := readSlice_some h1
      simp only [h1] at h
      cases h2 : readSlice (padding4 nhdr.n_namesz) r1 with
      | none => simp only [h2] at h; exact Except.noConfusion h
      | some p2 =>
        obtain ⟨s2, r2⟩ := p2
        obtain ⟨hb2, -, hr2⟩ := readSlice_some h2
        simp only [h2] at h
        cases h3 : readSlice nhdr.n_descsz r2 with
        | none => simp only [h3] at h; exact Except.noConfusion h
        | some p3 =>
          obtain ⟨s3, r3⟩ := p3
          obtain ⟨hb3, hs3, hr3⟩ := readSlice_some h3
          simp only [h3] at h
          cases h4 : readSlice (padding4 nhdr.n_descsz) r3 with
          | none => simp only [h4] at h; exact Except.noConfusion h
          | some p4 =>
            obtain ⟨s4, r4⟩ := p4
            obtain ⟨hb4, -, hr4⟩ := readSlice_some h4
            simp only [h4, Except.ok.injEq, Prod.mk.injEq] at h
            obtain ⟨hnote, hrest⟩ := h
            subst hrest hr4 hr3 hr2 hr1 hs1 hs3 hnote
            simp only [hns, hds] at hb1 hb2 hb3 hb4 ⊢
            simp only [List.drop_drop, List.length_drop, List.length_take] at hb1 hb2 hb3 hb4 ⊢
            exact ⟨by omega, hnt, trivial, trivial, trivial⟩

/-- On success `parse_note` consumes the 12-byte header plus the padded name
and description, so the remainder is strictly shorter. -/
theorem parse_note_shrinks {data : Bytes} {note : Note} {rest : Bytes}
    (h : parse_note data = .ok (note, rest)) : rest.length + 12 ≤ data.length := by
  obtain ⟨hle, -, -, -, hrest⟩ := parse_note_ok h
  subst hrest
  simp only [List.length_drop]
  omega

/-- The `while !note_data.is_empty()` loop of `parse_notes`, with an
explicit step budget.  A budget of `note_data.length` always suffices
because every successful `parse_note` consumes at least 12 bytes
(`parse_note_shrinks`); the out-of-budget branch is unreachable from
`parse_notes` (see `notesGo_fuel_irrelevant`). -/
def notesGo : Nat → Bytes → Except ParseError (List Note)
  | _, [] => .ok []
  | 0, _ :: _ => .error .noteTruncated
  | n + 1, b :: bs =>
    match parse_note (b :: bs) with
    | .error e => .error e
    | .ok (note, rest) => emap (note :: ·) (notesGo n rest)

/-- The loop accepts an exhausted buffer under any budget. -/
theorem notesGo_nil (n : Nat) : notesGo n [] = .ok [] := by
  cases n <;> rfl

/-- Any two budgets at least the buffer length run the loop identically. -/
theorem notesGo_fuel_irrelevant :
    ∀ (n m : Nat) (d : Bytes), d.length ≤ n → d.length ≤ m → notesGo n d = notesGo m d := by
  intro n
  induction n using Nat.strong_induction_on with
  | _ n ih =>
    intro m d hn hm
    match d, n, m with
    | [], n, m => rw [notesGo_nil, notesGo_nil]
    | b :: bs, 0, _ => simp at hn
    | b :: bs, _ + 1, 0 => simp at hm
    | b :: bs, n + 1, m + 1 =>
      simp only [notesGo]
      cases hp : parse_note (b :: bs) with
      | error e => rfl
      | ok pr =>
        obtain ⟨note, rest⟩ := pr
        have hcons := parse_note_shrinks hp
        simp only [List.length_cons] at hn hm hcons
        have hr : rest.length ≤ n := by omega
        change emap (note :: ·) (notesGo n rest) = emap (note :: ·) (notesGo m rest)
        rw [ih n (by omega) m rest hr (by omega)]

/-- `parse_notes`: concatenate the note records of every `PT_NOTE` segment,
in program-header order. -/
def parse_notes (phs : List ProgramHeader) (data : Bytes) : Except ParseError (List Note) :=
  match phs with
  | [] => .ok []
  | ph :: rest =>
    if ph.type_ ≠ PT_NOTE then parse_notes rest data
    else
      match ph.get_data data with
      | none => .error (.invalidFileRange ph)
      | some noteData =>
        match notesGo noteData.length noteData with
        | .error e => .error e
        | .ok notes => emap (notes ++ ·) (parse_notes rest data)

/-- `Elf::parse`: header, program-header table, notes. -/
def Elf.parse (data : Bytes) : PResult Elf :=
  match Elf64_Ehdr.parse data with
  | .error e => .error e
  | .ok header =>
    if header.e_phoff ≤ data.length then
      let ph_data := data.drop header.e_phoff
      match Elf64_Phdr.parse_n ph_data header.e_phnum with
      | .panicked => .panicked
      | .error e => .error e
      | .ok phdrs =>
        let program_headers := phdrs.map ProgramHeader.ofPhdr
        match parse_notes program_headers data with
        | .error e => .error e
        | .ok notes => .ok { program_headers := program_headers, notes := notes, data := data }
    else .error (.phOffsetOutOfBounds header.e_phoff)

/-- `Elf::iter_program_headers`. -/
def Elf.iter_program_headers (elf : Elf) (type_ : Nat) : List ProgramHeader :=
  elf.program_headers.filter (fun ph => ph.type_ == type_)

/-- `Elf::read_segment`. -/
def Elf.read_segment (elf : Elf) (ph : ProgramHeader) : Except ParseError Bytes :=
  match ph.get_data elf.data with
  | some d => .ok d
  | none => .error (.invalidFileRange ph)

/-- `Elf::iter_notes`: description slices of the notes matching
`(name, type)`, in encounter order. -/
def Elf.iter_notes (elf : Elf) (name : Bytes) (type_ : Nat) : List Bytes :=
  (elf.notes.filter (fun n => n.name == name && n.type_ == type_)).map (·.desc)

/-- `Elf::get_note`: the first matching description slice, if any. -/
def Elf.get_note (elf : Elf) (name : Bytes) (type_ : Nat) : Option Bytes :=
  (elf.iter_notes name type_).head?

/-- `b"CORE"`. -/
def coreName : Bytes := [0x43, 0x4f, 0x52, 0x45]

/-! ## `src/core.rs`: the core-dump layer -/

/-- A loaded memory region. -/
structure Segment where
  vm_start : Nat
  vm_end : Nat
  data : Bytes
deriving DecidableEq, Repr

/-- Decoded `NT_PRPSINFO` data.  `state_name` is the `pr_sname` byte (the
Rust field is a `char` obtained via `u8::into`). -/
structure ProcessInfo where
  state : Int
  state_name : Nat
  zombie : Bool
  nice : Int
  flags : Nat
  uid : Int
  gid : Int
  pid : Int
  ppid : Int
  pgrp : Int
  sid : Int
  file_name : Bytes
  command : Bytes
deriving DecidableEq, Repr

/-- `From<&elf_prpsinfo> for ProcessInfo`. -/
def ProcessInfo.ofPrpsinfo (p : elf_prpsinfo) : ProcessInfo :=
  { state := toI8 p.pr_state
    state_name := p.pr_sname
    zombie := toI8 p.pr_zomb == 1
    nice := toI8 p.pr_nice
    flags := p.pr_flag
    uid := toI32 p.pr_uid
    gid := toI32 p.pr_gid
    pid := toI32 p.pr_pid
    ppid := toI32 p.pr_ppid
    pgrp := toI32 p.pr_pgrp
    sid := toI32 p.pr_sid
    file_name := trim_c_string p.pr_fname
    command := trim_c_string p.pr_psargs }

/-- The semantic x86-64 register snapshot. -/
structure Registers where
  rax : Nat
  rbx : Nat
  rcx : Nat
  rdx : Nat
  rbp : Nat
  rsp : Nat
  rsi : Nat
  rdi : Nat
  r8 : Nat
  r9 : Nat
  r10 : Nat
  r11 : Nat
  r12 : Nat
  r13 : Nat
  r14 : Nat
  r15 : Nat
  rip : Nat
  rflags : Nat
  cs : Nat
  ds : Nat
  ss : Nat
  es : Nat
  fs : Nat
  gs : Nat
  fs_base : Nat
  gs_base : Nat
deriving DecidableEq, Repr

/-- `From<&elf_gregset_t> for Registers`: the on-disk slot to semantic name
remapping (`orig_ax` has no target and is discarded). -/
def Registers.ofGregset (g : elf_gregset_t) : Registers :=
  { rax := g.ax
    rbx := g.bx
    rcx := g.cx
    rdx := g.dx
    rbp := g.bp
    rsp := g.sp
    rsi := g.si
    rdi := g.di
    r8 := g.r8
    r9 := g.r9
    r10 := g.r10
    r11 := g.r11
    r12 := g.r12
    r13 := g.r13
    r14 := g.r14
    r15 := g.r15
    rip := g.ip
    rflags := g.flags
    cs := g.cs
    ds := g.ds
    ss := g.ss
    es := g.es
    fs := g.fs
    gs := g.gs
    fs_base := g.fs_base
    gs_base := g.gs_base }

/-- Decoded per-thread `NT_PRSTATUS` data. -/
structure ThreadInfo where
  pid : Int
  registers : Registers
deriving DecidableEq, Repr

/-- `From<&elf_prstatus> for ThreadInfo`. -/
def ThreadInfo.ofPrstatus (st : elf_prstatus) : ThreadInfo :=
  { pid := toI32 st.common.pr_pid, registers := Registers.ofGregset st.pr_reg }

/-- An `NT_FILE` entry. -/
structure FileMapping where
  vm_start : Nat
  vm_end : Nat
  file_offset : Nat
  file_path : Bytes
deriving DecidableEq, Repr

/-- The fully decoded core dump. -/
structure Core where
  segments : List Segment
  process : ProcessInfo
  threads : List ThreadInfo
  file_map : List FileMapping
deriving DecidableEq, Repr

/-- The `for ph in elf.iter_program_headers(PT_LOAD)` loop body of
`extract_segments`: size check, `vm_end` computation (`usize` addition),
segment bytes. -/
def segLoop (data : Bytes) : List ProgramHeader → Except ParseError (List Segment)
  | [] => .ok []
  | ph :: phs =>
    if ph.memory_size ≠ ph.file_size then .error (.sizeMismatch ph.file_size ph.memory_size)
    else
      match ph.get_data data with
      | none => .error (.invalidFileRange ph)
      | some d =>
        emap
          ({ vm_start := ph.memory_address
             vm_end := usizeAdd ph.memory_address ph.memory_size
             data := d } :: ·)
          (segLoop data phs)

/-- `extract_segments`. -/
def extract_segments (elf : Elf) : Except ParseError (List Segment) :=
  segLoop elf.data (elf.iter_program_headers PT_LOAD)

/-- `extract_process_info`. -/
def extract_process_info (elf : Elf) : Except ParseError ProcessInfo :=
  match elf.get_note coreName NT_PRPSINFO with
  | none => .error (.missingNote "CORE/NT_PRPSINFO")
  | some data => emap ProcessInfo.ofPrpsinfo (elf_prpsinfo.parse data)

/-- The `Iterator::collect::<Result<Vec<_>, _>>` of `extract_thread_infos`:
decode each description in order, stopping at the first error. -/
def collectThreads : List Bytes → Except ParseError (List ThreadInfo)
  | [] => .ok []
  | d :: ds =>
    match elf_prstatus.parse d with
    | .error e => .error e
    | .ok st => emap (ThreadInfo.ofPrstatus st :: ·) (collectThreads ds)

/-- `extract_thread_infos`. -/
def extract_thread_infos (elf : Elf) : Except ParseError (List ThreadInfo) :=
  collectThreads (elf.iter_notes coreName NT_PRSTATUS)

/-- The entry-reading loop of `extract_file_map`: `count` records of three
`u64`s; `file_offset = page_idx * page_size` is a `u64` multiplication
(wrapping semantics). `none` is the (`"NT_FILE note: not enough data"`)
reader failure. -/
def readEntries (page_size : Nat) : Nat → Bytes → Option (List FileMapping × Bytes)
  | 0, data => some ([], data)
  | n + 1, data =>
    match readU64 data with
    | none => none
    | some (vm_start, d1) =>
      match readU64 d1 with
      | none => none
      | some (vm_end, d2) =>
        match readU64 d2 with
        | none => none
        | some (page_idx, d3) =>
          match readEntries page_size n d3 with
          | none => none
          | some (ms, rest) =>
            some
              ({ vm_start := vm_start
                 vm_end := vm_end
                 file_offset := u64Mul page_idx page_size
                 file_path := [] } :: ms, rest)

/-- The path-assignment loop of `extract_file_map`: give each mapping the
next NUL-split token; running out of tokens is the
`"NT_FILE note contains too few paths"` error (`none` here). -/
def assignPaths : List FileMapping → List Bytes → Option (List FileMapping)
  | [], _ => some []
  | _ :: _, [] => none
  | m :: ms, p :: ps => (assignPaths ms ps).map ({ m with file_path := p } :: ·)

/-- `extract_file_map`. -/
def extract_file_map (elf : Elf) : Except ParseError (List FileMapping) :=
  match elf.get_note coreName NT_FILE with
  | none => .error (.missingNote "CORE/NT_FILE")
  | some data =>
    match readU64 data with
    | none => .error .ntFileTruncated
    | some (count, d1) =>
      match readU64 d1 with
      | none => .error .ntFileTruncated
      | some (page_size, d2) =>
        match readEntries page_size count d2 with
        | none => .error .ntFileTruncated
        | some (mappings, rest) =>
          match assignPaths mappings (splitOnZero rest) with
          | none => .error .tooFewPaths
          | some ms => .ok ms

/-- `Core::parse`. -/
def Core.parse (data : Bytes) : PResult Core :=
  match Elf.parse data with
  | .panicked => .panicked
  | .error e => .error e
  | .ok elf =>
    match extract_segments elf with
    | .error e => .error e
    | .ok segments =>
      match extract_process_info elf with
      | .error e => .error e
      | .ok process =>
        match extract_thread_infos elf with
        | .error e => .error e
        | .ok threads =>
          match extract_file_map elf with
          | .error e => .error e
          | .ok file_map =>
            .ok { segments := segments, process := process, threads := threads,
                  file_map := file_map }

/-! ## Concrete input buffers

Synthetic core-dump files used to witness the theorems below and to refute
claims at explicit inputs. -/

/-- The `w`-byte little-endian encoding of `v`. -/
def leBytes : Nat → Nat → Bytes
  | 0, _ => []
  | n + 1, v => ⟨v % 256, Nat.mod_lt _ (by norm_num)⟩ :: leBytes n (v / 256)

/-- 8-byte little-endian encoding. -/
def u64le (v : Nat) : Bytes := leBytes 8 v

/-- 4-byte little-endian encoding. -/
def u32le (v : Nat) : Bytes := leBytes 4 v

/-- 2-byte little-endian encoding. -/
def u16le (v : Nat) : Bytes := leBytes 2 v

/-- A valid ELF64 core file header with program-header table at offset 64
and `phnum` entries. -/
def ehdrBytes (phnum : Nat) : Bytes :=
  [0x7f, 0x45, 0x4c, 0x46, 2, 1, 1, 0] ++ List.replicate 8 0
    ++ u16le 4 ++ u16le 62 ++ u32le 1 ++ u64le 0 ++ u64le 64 ++ u64le 0 ++ u32le 0
    ++ u16le 64 ++ u16le 56 ++ u16le phnum ++ u16le 64 ++ u16le 0 ++ u16le 0

/-- A 56-byte program header record. -/
def phdrBytes (ptype flags off vaddr paddr filesz memsz align : Nat) : Bytes :=
  u32le ptype ++ u32le flags ++ u64le off ++ u64le vaddr ++ u64le paddr
    ++ u64le filesz ++ u64le memsz ++ u64le align

/-- A note record owned by `"CORE"` with the given type and description. -/
def noteBytes (ntype : Nat) (desc : Bytes) : Bytes :=
  u32le 5 ++ u32le desc.length ++ u32le ntype ++ (coreName ++ [0]) ++ [0, 0, 0]
    ++ desc ++ List.replicate (padding4 desc.length) 0

/-- A 136-byte `elf_prpsinfo` description: state `'S'`, pid 42,
`pr_fname = "init"`, `pr_psargs = "/bin"`. -/
def prpsinfoDescBytes : Bytes :=
  [0, 0x53, 0, 0] ++ List.replicate 4 0
    ++ u64le 0 ++ u32le 1000 ++ u32le 1000 ++ u32le 42 ++ u32le 1 ++ u32le 42 ++ u32le 42
    ++ ([0x69, 0x6e, 0x69, 0x74] ++ List.replicate 12 0)
    ++ ([0x2f, 0x62, 0x69, 0x6e] ++ List.replicate 76 0)

/-- A 332-byte `elf_prstatus` description: pid 100, gregset slots holding
1, 2, …, 27 in on-disk order. -/
def prstatusDescBytes : Bytes :=
  List.replicate 32 0
    ++ u32le 100 ++ u32le 0 ++ u32le 0 ++ u32le 0
    ++ List.replicate 64 0
    ++ (((List.range 27).map (fun i => u64le (i + 1))).flatten)
    ++ u32le 0

/-- A 92-byte `NT_FILE` description: count 3, page size `0x1000`, three
entries, and the path block `"a\0b\0"` (two NUL-terminated paths). -/
def ntfileDescBytes : Bytes :=
  u64le 3 ++ u64le 0x1000
    ++ u64le 0x1000 ++ u64le 0x2000 ++ u64le 3
    ++ u64le 0x2000 ++ u64le 0x3000 ++ u64le 5
    ++ u64le 0x3000 ++ u64le 0x4000 ++ u64le 7
    ++ [0x61, 0, 0x62, 0]

/-- A complete 800-byte well-formed core dump: one `PT_LOAD` segment (4
bytes at vaddr `0x1000`), one `PT_NOTE` segment holding `NT_PRPSINFO`, one
`NT_PRSTATUS` and the `NT_FILE` note above. -/
def sampleCoreBuf : Bytes :=
  ehdrBytes 2
    ++ phdrBytes PT_LOAD 0 176 0x1000 0x1000 4 4 1
    ++ phdrBytes PT_NOTE 0 180 0 0 620 620 1
    ++ [0xaa, 0xbb, 0xcc, 0xdd]
    ++ noteBytes NT_PRPSINFO prpsinfoDescBytes
    ++ noteBytes NT_PRSTATUS prstatusDescBytes
    ++ noteBytes NT_FILE ntfileDescBytes

/-- The register snapshot decoded from `prstatusDescBytes` (slots 1…27 sent
through the on-disk-to-semantic remapping). -/
def sampleRegisters : Registers :=
  { rax := 11, rbx := 6, rcx := 12, rdx := 13, rbp := 5, rsp := 20, rsi := 14, rdi := 15,
    r8 := 10, r9 := 9, r10 := 8, r11 := 7, r12 := 4, r13 := 3, r14 := 2, r15 := 1,
    rip := 17, rflags := 19, cs := 18, ds := 24, ss := 21, es := 25, fs := 26, gs := 27,
    fs_base := 22, gs_base := 23 }

/-- The decode of `sampleCoreBuf`. -/
def sampleCoreVal : Core :=
  { segments := [{ vm_start := 4096, vm_end := 4100, data := [0xaa, 0xbb, 0xcc, 0xdd] }]
    process :=
      { state := 0, state_name := 83, zombie := false, nice := 0, flags := 0,
        uid := 1000, gid := 1000, pid := 42, ppid := 1, pgrp := 42, sid := 42,
        file_name := [0x69, 0x6e, 0x69, 0x74], command := [0x2f, 0x62, 0x69, 0x6e] }
    threads := [{ pid := 100, registers := sampleRegisters }]
    file_map :=
      [{ vm_start := 4096, vm_end := 8192, file_offset := 12288, file_path := [0x61] },
       { vm_start := 8192, vm_end := 12288, file_offset := 20480, file_path := [0x62] },
       { vm_start := 12288, vm_end := 16384, file_offset := 28672, file_path := [] }] }

/-- An `NT_FILE` description declaring count 4 over the same two-path
block `"a\0b\0"` (which splits into only 3 tokens). -/
def fewPathsDescBytes : Bytes :=
  u64le 4 ++ u64le 0x1000
    ++ u64le 0x1000 ++ u64le 0x2000 ++ u64le 3
    ++ u64le 0x2000 ++ u64le 0x3000 ++ u64le 5
    ++ u64le 0x3000 ++ u64le 0x4000 ++ u64le 7
    ++ u64le 0x4000 ++ u64le 0x5000 ++ u64le 9
    ++ [0x61, 0, 0x62, 0]

/-- A well-formed core dump whose `NT_FILE` note declares one more entry
than the path block has NUL-split tokens. -/
def fewPathsCoreBuf : Bytes :=
  ehdrBytes 1
    ++ phdrBytes PT_NOTE 0 120 0 0 292 292 1
    ++ noteBytes NT_PRPSINFO prpsinfoDescBytes
    ++ noteBytes NT_FILE fewPathsDescBytes

/-- A well-formed core dump whose `NT_FILE` note has `page_size = 3` and
`page_idx = 6148914691236517206`, so that the `u64` product
`page_idx * page_size = 2^64 + 2` wraps to `2`. -/
def overflowCoreBuf : Bytes :=
  ehdrBytes 1
    ++ phdrBytes PT_NOTE 0 120 0 0 220 220 1
    ++ noteBytes NT_PRPSINFO prpsinfoDescBytes
    ++ noteBytes NT_FILE
      (u64le 1 ++ u64le 3 ++ u64le 0 ++ u64le 0 ++ u64le 6148914691236517206 ++ [0x61, 0])

/-- A core dump with a single `PT_LOAD` header whose file size (`0x10`)
differs from its memory size (`0x20`). -/
def mismatchCoreBuf : Bytes :=
  ehdrBytes 1 ++ phdrBytes PT_LOAD 0 0 0 0 0x10 0x20 1

/-- The ELF container parsed from `mismatchCoreBuf`. -/
def mismatchElf : Elf :=
  { program_headers :=
      [{ type_ := 1
         file_offset := 0
         file_size := 0x10
         memory_address := 0
         memory_size := 0x20 }]
    notes := []
    data := mismatchCoreBuf }

/-- A core dump whose first `PT_LOAD` header has an out-of-bounds file
range (offset 100000 in a 176-byte file) and whose second `PT_LOAD` header
has `p_filesz = 0x10 ≠ p_memsz = 0x20`. -/
def rangeCoreBuf : Bytes :=
  ehdrBytes 2
    ++ phdrBytes PT_LOAD 0 100000 0 0 1 1 1
    ++ phdrBytes PT_LOAD 0 0 0 0 0x10 0x20 1

/-- The `elf_prstatus` record decoded from `prstatusDescBytes`. -/
def sampleStatus : elf_prstatus :=
  { common :=
      { pr_info := { si_signo := 0, si_code := 0, si_errno := 0 }
        pr_cursig := 0
        pr_sigpend := 0
        pr_sighold := 0
        pr_pid := 100
        pr_ppid := 0
        pr_pgrp := 0
        pr_sid := 0
        pr_utime := { tv_sec := 0, tv_usec := 0 }
        pr_stime := { tv_sec := 0, tv_usec := 0 }
        pr_cutime := { tv_sec := 0, tv_usec := 0 }
        pr_cstime := { tv_sec := 0, tv_usec := 0 } }
    pr_reg :=
      { r15 := 1, r14 := 2, r13 := 3, r12 := 4, bp := 5, bx := 6, r11 := 7, r10 := 8,
        r9 := 9, r8 := 10, ax := 11, cx := 12, dx := 13, si := 14, di := 15, orig_ax := 16,
        ip := 17, cs := 18, flags := 19, sp := 20, ss := 21, fs_base := 22, gs_base := 23,
        ds := 24, es := 25, fs := 26, gs := 27 }
    pr_fpvalid := 0 }

/-- An ELF container holding just a `CORE/NT_PRPSINFO` note. -/
def prpsinfoElf : Elf :=
  { program_headers := []
    notes := [{ type_ := NT_PRPSINFO, name := coreName, desc := prpsinfoDescBytes }]
    data := [] }

/-- An ELF container with no notes at all. -/
def emptyElf : Elf := { program_headers := [], notes := [], data := [] }

/-! ## The claims -/

/-- **C1** (claim refuted by the code — the claim describes the intended
safe behaviour, the code panics): a program header with `p_align = 0` does
not make the alignment check pass; instead `Elf64_Phdr::verify` evaluates
`p_vaddr % 0`, which is a Rust panic (remainder by zero), for every
`p_vaddr`/`p_paddr` value. -/
theorem claim_c1_palign_zero_panics (t f o v p fs ms : Nat) :
    Elf64_Phdr.verify ⟨t, f, o, v, p, fs, ms, 0⟩ = .panicked := rfl

/-- **C1** evaluated at the concrete failing input: the all-zero program
header (in particular `p_align = 0`) makes `verify` panic, and hence a
program-header table containing it cannot be parsed without a panic. -/
theorem claim_c1_concrete :
    Elf64_Phdr.verify ⟨1, 0, 0, 0, 0, 0, 0, 0⟩ = .panicked ∧
      Elf64_Phdr.parse_n (phdrBytes 1 0 0 0 0 0 0 0) 1 = .panicked := by
  exact ⟨claim_c1_palign_zero_panics 1 0 0 0 0 0 0, by decide⟩

/-- **C9**: the decoder is a pure function of the input buffer —
byte-identical buffers give structurally equal results, and success on one
implies success on the other. -/
theorem claim_c9_deterministic (d1 d2 : Bytes) (h : d1 = d2) :
    Core.parse d1 = Core.parse d2 ∧ ((Core.parse d1).isOk ↔ (Core.parse d2).isOk) := by
  subst h
  exact ⟨rfl, Iff.rfl⟩

/-- **C9** at a concrete input. -/
theorem claim_c9_witness :
    Core.parse sampleCoreBuf = Core.parse sampleCoreBuf :=
  (claim_c9_deterministic sampleCoreBuf sampleCoreBuf rfl).1

/-- **C10**: the note-stream walk terminates.  A successful `parse_note`
consumes exactly the 12 header bytes plus padded name and description (so
at least 12 bytes, and the remainder is strictly shorter), and the note
loop `notesGo` is insensitive to any step budget of at least the buffer
length — i.e. it reaches the empty slice or an error within
`buffer length` steps. -/
theorem claim_c10_termination :
    (∀ (data : Bytes) (note : Note) (rest : Bytes), parse_note data = .ok (note, rest) →
      data.length = 12 + u32At data 0 + padding4 (u32At data 0) + u32At data 4 +
          padding4 (u32At data 4) + rest.length ∧
        note.desc.length = u32At data 4 ∧ rest.length + 12 ≤ data.length) ∧
      (∀ (n m : Nat) (d : Bytes), d.length ≤ n → d.length ≤ m → notesGo n d = notesGo m d) := by
  refine ⟨fun data note rest h => ?_, notesGo_fuel_irrelevant⟩
  obtain ⟨hle, -, -, hdesc, hrest⟩ := parse_note_ok h
  refine ⟨?_, ?_, parse_note_shrinks h⟩
  · subst hrest
    simp only [List.length_drop]
    omega
  · rw [hdesc]
    simp only [List.length_take, List.length_drop]
    omega

/-- **C10** at a concrete input: the all-zero 12-byte note record parses
with an empty remainder. -/
theorem claim_c10_witness :
    parse_note (List.replicate 12 0) =
        .ok ({ type_ := 0, name := [], desc := [] }, []) ∧
      (List.replicate 12 0 : Bytes).length =
        12 + u32At (List.replicate 12 0) 0 + padding4 (u32At (List.replicate 12 0) 0) +
          u32At (List.replicate 12 0) 4 + padding4 (u32At (List.replicate 12 0) 4) +
          ([] : Bytes).length := by
  have hp : parse_note (List.replicate 12 0) =
      .ok ({ type_ := 0, name := [], desc := [] }, []) := by decide
  exact ⟨hp, (claim_c10_termination.1 _ _ _ hp).1⟩

/-- Reading a scalar after a `drop` shifts the offset. -/
theorem u64At_drop (l : Bytes) (a b : Nat) : u64At (l.drop a) b = u64At l (a + b) := by
  simp only [u64At, lePick, List.drop_drop]

/-- Inversion of a successful `elf_prstatus::parse`: the buffer holds the
332-byte record and every field is the scalar at its layout offset. -/
theorem prstatus_parse_ok {data : Bytes} {st : elf_prstatus}
    (h : elf_prstatus.parse data = .ok st) :
    332 ≤ data.length ∧ st.common.pr_pid = u32At data 32 ∧
      st.pr_reg = elf_gregset_t.view1 (data.drop 112) := by
  unfold elf_prstatus.parse at h
  split at h
  next hlen =>
    simp only [Except.ok.injEq] at h
    subst h
    exact ⟨hlen, rfl, rfl⟩
  next => simp at h

/-- **C3**: for every successfully decoded `PRSTATUS` note, the semantic
registers are exactly the on-disk gregset slots at their layout offsets
(gregset base 112, slot `i` at `112 + 8 i`): `rip` is slot 16 (offset 240),
`rflags` slot 18 (offset 256), `rsp` slot 19 (offset 264), and so on; slot
15 (`orig_ax`, offset 232) feeds no register and is discarded. -/
theorem claim_c3_register_mapping (data : Bytes) (st : elf_prstatus)
    (h : elf_prstatus.parse data = .ok st) :
    (ThreadInfo.ofPrstatus st).registers =
      { rax := u64At data 192, rbx := u64At data 152, rcx := u64At data 200,
        rdx := u64At data 208, rbp := u64At data 144, rsp := u64At data 264,
        rsi := u64At data 216, rdi := u64At data 224, r8 := u64At data 184,
        r9 := u64At data 176, r10 := u64At data 168, r11 := u64At data 160,
        r12 := u64At data 136, r13 := u64At data 128, r14 := u64At data 120,
        r15 := u64At data 112, rip := u64At data 240, rflags := u64At data 256,
        cs := u64At data 248, ds := u64At data 296, ss := u64At data 272,
        es := u64At data 304, fs := u64At data 312, gs := u64At data 320,
        fs_base := u64At data 280, gs_base := u64At data 288 } := by
  obtain ⟨-, -, hreg⟩ := prstatus_parse_ok h
  simp only [ThreadInfo.ofPrstatus, Registers.ofGregset, hreg, elf_gregset_t.view1, u64At_drop]

/-- **C3** at the concrete gregset holding 1, 2, …, 27 in slot order:
`r15 = 1`, `rip = 17`, `rflags = 19`, `rsp = 20`. -/
theorem claim_c3_witness :
    elf_prstatus.parse prstatusDescBytes = .ok sampleStatus ∧
      (ThreadInfo.ofPrstatus sampleStatus).registers.r15 = 1 ∧
      (ThreadInfo.ofPrstatus sampleStatus).registers.rip = 17 ∧
      (ThreadInfo.ofPrstatus sampleStatus).registers.rflags = 19 ∧
      (ThreadInfo.ofPrstatus sampleStatus).registers.rsp = 20 := by
  have hp : elf_prstatus.parse prstatusDescBytes = .ok sampleStatus := by decide
  have h := claim_c3_register_mapping prstatusDescBytes sampleStatus hp
  refine ⟨hp, ?_, ?_, ?_, ?_⟩ <;> rw [h] <;> decide

/-- Rust's slice `split` always yields at least one token. -/
theorem splitOnZero_ne_nil (s : Bytes) : splitOnZero s ≠ [] := by
  cases s with
  | nil => simp [splitOnZero]
  | cons b bs =>
    simp only [splitOnZero]
    split
    · simp
    · split <;> simp

/-- The first NUL-split token is the longest NUL-free prefix. -/
theorem splitOnZero_head (s : Bytes) :
    (splitOnZero s).head? = some (s.takeWhile (fun b => b != 0)) := by
  induction s with
  | nil => rfl
  | cons b bs ih =>
    by_cases hb : b = (0 : Byte)
    · subst hb
      simp [splitOnZero, List.takeWhile_cons]
    · simp only [splitOnZero, hb, if_false, List.takeWhile_cons]
      cases hsp : splitOnZero bs with
      | nil => exact absurd hsp (splitOnZero_ne_nil bs)
      | cons t ts =>
        rw [hsp] at ih
        simp only [List.head?] at ih
        simp only [Option.some.injEq] at ih
        subst ih
        simp [hb]

/-- `trim_c_string` computes the longest NUL-free prefix. -/
theorem trim_c_string_eq_takeWhile (s : Bytes) :
    trim_c_string s = s.takeWhile (fun b => b != 0) := by
  simp [trim_c_string, splitOnZero_head]

/-- The trimmed string never contains a NUL byte. -/
theorem trim_c_string_no_nul (s : Bytes) :
    (trim_c_string s).all (fun b => b != 0) = true := by
  rw [trim_c_string_eq_takeWhile]
  induction s with
  | nil => rfl
  | cons b bs ih =>
    rw [List.takeWhile_cons]
    by_cases hb : (b != 0) = true
    · rw [if_pos hb, List.all_cons, hb, Bool.true_and]
      exact ih
    · rw [if_neg hb]
      rfl

/-- A NUL-free field is returned whole by `trim_c_string`. -/
theorem trim_c_string_of_no_nul {s : Bytes} (h : s.all (fun b => b != 0) = true) :
    trim_c_string s = s := by
  rw [trim_c_string_eq_takeWhile]
  induction s with
  | nil => rfl
  | cons b bs ih =>
    simp only [List.all_cons, Bool.and_eq_true] at h
    rw [List.takeWhile_cons, if_pos h.1, ih h.2]

/-- The `NT_PRPSINFO` description slice an ELF container offers, if any. -/
def prpsinfoDescOf (elf : Elf) : Bytes := (elf.get_note coreName NT_PRPSINFO).getD []

/-- Inversion of a successful `elf_prpsinfo::parse`: the string fields are
the 16-byte slice at offset 40 and the 80-byte slice at offset 56. -/
theorem prpsinfo_parse_ok {data : Bytes} {info : elf_prpsinfo}
    (h : elf_prpsinfo.parse data = .ok info) :
    136 ≤ data.length ∧ info.pr_fname = (data.drop 40).take 16 ∧
      info.pr_psargs = (data.drop 56).take 80 := by
  unfold elf_prpsinfo.parse at h
  split at h
  next hlen =>
    simp only [Except.ok.injEq] at h
    subst h
    exact ⟨hlen, rfl, rfl⟩
  next => simp at h

/-- **C8**: every decoded `ProcessInfo` has NUL-free `file_name` and
`command`; each is the prefix of the fixed `pr_fname` (16-byte) resp.
`pr_psargs` (80-byte) field up to the first NUL, and equals the whole field
when the field holds no NUL at all. -/
theorem claim_c8_nul_trimming (elf : Elf) (p : ProcessInfo)
    (h : extract_process_info elf = .ok p) :
    p.file_name.all (fun b => b != 0) = true ∧
      p.file_name = (((prpsinfoDescOf elf).drop 40).take 16).takeWhile (fun b => b != 0) ∧
      ((((prpsinfoDescOf elf).drop 40).take 16).all (fun b => b != 0) = true →
        p.file_name = ((prpsinfoDescOf elf).drop 40).take 16) ∧
      p.command.all (fun b => b != 0) = true ∧
      p.command = (((prpsinfoDescOf elf).drop 56).take 80).takeWhile (fun b => b != 0) ∧
      ((((prpsinfoDescOf elf).drop 56).take 80).all (fun b => b != 0) = true →
        p.command = ((prpsinfoDescOf elf).drop 56).take 80) := by
  unfold extract_process_info at h
  cases hn : elf.get_note coreName NT_PRPSINFO with
  | none => simp only [hn] at h; exact Except.noConfusion h
  | some d =>
    simp only [hn] at h
    have hd : prpsinfoDescOf elf = d := by rw [prpsinfoDescOf, hn]; rfl
    cases hp : elf_prpsinfo.parse d with
    | error e => rw [hp] at h; exact Except.noConfusion h
    | ok info =>
      rw [hp] at h
      simp only [emap, Except.ok.injEq] at h
      subst h
      obtain ⟨-, hfn, hps⟩ := prpsinfo_parse_ok hp
      rw [hd]
      simp only [ProcessInfo.ofPrpsinfo, hfn, hps]
      refine ⟨trim_c_string_no_nul _, trim_c_string_eq_takeWhile _,
        fun hall => trim_c_string_of_no_nul hall, trim_c_string_no_nul _,
        trim_c_string_eq_takeWhile _, fun hall => trim_c_string_of_no_nul hall⟩

/-- **C8** at a concrete input: the sample `PRPSINFO` note with
`pr_fname = "init\0…\0"` decodes to `file_name = "init"`, which is NUL-free. -/
theorem claim_c8_witness :
    extract_process_info prpsinfoElf = .ok sampleCoreVal.process ∧
      sampleCoreVal.process.file_name.all (fun b => b != 0) = true ∧
      sampleCoreVal.process.file_name = [0x69, 0x6e, 0x69, 0x74] := by
  have hp : extract_process_info prpsinfoElf = .ok sampleCoreVal.process := by decide
  exact ⟨hp, (claim_c8_nul_trimming prpsinfoElf sampleCoreVal.process hp).1, by decide⟩

/-- **C2, counterexample**: `sampleCoreBuf` is a well-formed core dump whose
`NT_FILE` note declares `count = 3` with the path block `"a\0b\0"` (only two
NUL-terminated paths) — yet the decoder *succeeds*: Rust's `split` yields a
third, empty token after the trailing NUL, so the third mapping simply gets
an empty path instead of the claimed "too few paths" failure. -/
theorem claim_c2_counterexample :
    PResult.map Core.file_map (Core.parse sampleCoreBuf) =
      .ok
        [{ vm_start := 4096, vm_end := 8192, file_offset := 12288, file_path := [0x61] },
         { vm_start := 8192, vm_end := 12288, file_offset := 20480, file_path := [0x62] },
         { vm_start := 12288, vm_end := 16384, file_offset := 28672, file_path := [] }] := by
  decide

/-- Path assignment fails exactly when the token list is shorter than the
mapping list. -/
theorem assignPaths_none_iff (ms : List FileMapping) (toks : List Bytes) :
    assignPaths ms toks = none ↔ toks.length < ms.length := by
  induction ms generalizing toks with
  | nil => simp [assignPaths]
  | cons m ms ih =>
    cases toks with
    | nil => simp [assignPaths]
    | cons t ts =>
      simp only [assignPaths, List.length_cons]
      cases ha : assignPaths ms ts with
      | none =>
        have h1 := (ih ts).1 ha
        simp
        omega
      | some r =>
        have h2 : ¬ ts.length < ms.length := fun hlt => by
          rw [(ih ts).2 hlt] at ha
          exact Option.noConfusion ha
        simp
        omega

/-- Splitting on NUL yields one more token than there are NUL bytes. -/
theorem splitOnZero_length (s : Bytes) :
    (splitOnZero s).length = (s.filter (fun b => b == 0)).length + 1 := by
  induction s with
  | nil => rfl
  | cons b bs ih =>
    by_cases hb : b = (0 : Byte)
    · subst hb
      simp [splitOnZero, List.filter_cons, ih]
    · have hbb : (b == (0 : Byte)) = false := by simpa using hb
      simp only [splitOnZero, hb, if_false, List.filter_cons, hbb]
      cases hsp : splitOnZero bs with
      | nil => exact absurd hsp (splitOnZero_ne_nil bs)
      | cons t ts => rw [hsp] at ih; simpa using ih

/-- **C2, amended**: running out of NUL-split tokens is what is fatal — the
path assignment fails exactly when the declared entry count exceeds the
number of tokens, which is the number of NUL bytes in the block plus one.
A block `"a\0b\0"` therefore supplies *three* tokens (`"a"`, `"b"`, `""`),
so `count = 3` succeeds (see the counterexample), while `count = 4` over
the same block fails with the "NT_FILE note contains too few paths" error,
as in the concrete dump `fewPathsCoreBuf`. -/
theorem claim_c2_amended :
    (∀ (ms : List FileMapping) (rest : Bytes),
      assignPaths ms (splitOnZero rest) = none ↔
        (rest.filter (fun b => b == 0)).length + 1 < ms.length) ∧
      Core.parse fewPathsCoreBuf = .error .tooFewPaths := by
  refine ⟨fun ms rest => ?_, by decide⟩
  rw [assignPaths_none_iff, splitOnZero_length]

/-- **C2, amended** at concrete inputs: one mapping and an empty token list
fail the assignment (the empty block still carries one token, so two
mappings are needed before failure). -/
theorem claim_c2_witness :
    (assignPaths
        [{ vm_start := 0, vm_end := 0, file_offset := 0, file_path := [] },
         { vm_start := 0, vm_end := 0, file_offset := 0, file_path := [] }]
        (splitOnZero []) = none) ↔ True := by
  simp only [iff_true]
  rw [claim_c2_amended.1]
  decide

/-- Inversion of `emap`. -/
theorem emap_ok {α β : Type} {f : α → β} {x : Except ParseError α} {b : β}
    (h : emap f x = .ok b) : ∃ a, x = .ok a ∧ b = f a := by
  cases x with
  | error e => exact Except.noConfusion h
  | ok a =>
    simp only [emap, Except.ok.injEq] at h
    exact ⟨a, rfl, h.symm⟩

/-- Inversion of a successful `Core::parse` into its four extractors. -/
theorem core_parse_ok_inv {data : Bytes} {core : Core} (h : Core.parse data = .ok core) :
    ∃ elf, Elf.parse data = .ok elf ∧
      extract_segments elf = .ok core.segments ∧
      extract_process_info elf = .ok core.process ∧
      extract_thread_infos elf = .ok core.threads ∧
      extract_file_map elf = .ok core.file_map := by
  unfold Core.parse at h
  cases he : Elf.parse data with
  | panicked => simp only [he] at h; exact PResult.noConfusion h
  | error e => simp only [he] at h; exact PResult.noConfusion h
  | ok elf =>
    simp only [he] at h
    refine ⟨elf, rfl, ?_⟩
    cases hs : extract_segments elf with
    | error e => simp only [hs] at h; exact PResult.noConfusion h
    | ok segments =>
      simp only [hs] at h
      cases hp : extract_process_info elf with
      | error e => simp only [hp] at h; exact PResult.noConfusion h
      | ok process =>
        simp only [hp] at h
        cases ht : extract_thread_infos elf with
        | error e => simp only [ht] at h; exact PResult.noConfusion h
        | ok threads =>
          simp only [ht] at h
          cases hf : extract_file_map elf with
          | error e => simp only [hf] at h; exact PResult.noConfusion h
          | ok file_map =>
            simp only [hf, PResult.ok.injEq] at h
            subst h
            exact ⟨rfl, rfl, rfl, rfl⟩

/-- A little-endian read is bounded by `256 ^ length`. -/
theorem leNat_lt (l : Bytes) : leNat l < 256 ^ l.length := by
  induction l with
  | nil => simp [leNat]
  | cons b bs ih =>
    simp only [leNat, List.length_cons, pow_succ]
    have hb : b.val < 256 := b.isLt
    calc b.val + 256 * leNat bs < 256 + 256 * leNat bs := by omega
    _ ≤ 256 * (leNat bs + 1) := by ring_nf; omega
    _ ≤ 256 * 256 ^ bs.length := by
        have := ih
        exact Nat.mul_le_mul_left 256 (by omega)
    _ = 256 ^ bs.length * 256 := by ring

/-- Any `u64` field read is below `2 ^ 64`. -/
theorem u64At_lt (d : Bytes) (off : Nat) : u64At d off < U64MOD := by
  have h := leNat_lt ((d.drop off).take 8)
  have hlen : ((d.drop off).take 8).length ≤ 8 := by
    simp [List.length_take]
  have hp : (256 : Nat) ^ ((d.drop off).take 8).length ≤ 256 ^ 8 :=
    Nat.pow_le_pow_right (by omega) hlen
  have : (256 : Nat) ^ 8 = U64MOD := by norm_num [U64MOD]
  unfold u64At lePick
  omega

/-- Inversion of a successful `Elf::parse`: the container keeps the whole
input buffer, and every normalized program-header field that came from a
`u64` read is below `2 ^ 64`. -/
theorem elf_parse_ok_inv {data : Bytes} {elf : Elf} (h : Elf.parse data = .ok elf) :
    elf.data = data ∧
      ∀ ph ∈ elf.program_headers,
        ph.file_offset < U64MOD ∧ ph.file_size < U64MOD ∧ ph.memory_size < U64MOD := by
  unfold Elf.parse at h
  cases hh : Elf64_Ehdr.parse data with
  | error e => simp only [hh] at h; exact PResult.noConfusion h
  | ok header =>
    simp only [hh] at h
    split at h
    case isFalse => exact PResult.noConfusion h
    case isTrue =>
      cases hpn : Elf64_Phdr.parse_n (data.drop header.e_phoff) header.e_phnum with
      | panicked => simp only [hpn] at h; exact PResult.noConfusion h
      | error e => simp only [hpn] at h; exact PResult.noConfusion h
      | ok phdrs =>
        simp only [hpn] at h
        cases hnotes : parse_notes (phdrs.map ProgramHeader.ofPhdr) data with
        | error e => simp only [hnotes] at h; exact PResult.noConfusion h
        | ok notes =>
          simp only [hnotes, PResult.ok.injEq] at h
          subst h
          refine ⟨rfl, ?_⟩
          intro ph hph
          simp only [List.mem_map] at hph
          obtain ⟨phdr, hmem, heq⟩ := hph
          have hview : ∀ d, ∀ q ∈ Elf64_Phdr.viewN header.e_phnum d,
              q.p_offset < U64MOD ∧ q.p_filesz < U64MOD ∧ q.p_memsz < U64MOD := by
            clear hmem hpn
            induction header.e_phnum with
            | zero => intro d q hq; simp [Elf64_Phdr.viewN] at hq
            | succ n ih =>
              intro d q hq
              simp only [Elf64_Phdr.viewN, List.mem_cons] at hq
              rcases hq with hq | hq
              · subst hq
                exact ⟨u64At_lt d 8, u64At_lt d 32, u64At_lt d 40⟩
              · exact ih (d.drop 56) q hq
          have hmem2 : phdr ∈ Elf64_Phdr.viewN header.e_phnum (data.drop header.e_phoff) := by
            unfold Elf64_Phdr.parse_n at hpn
            split at hpn
            · cases hv : Elf64_Phdr.verifyAll
                  (Elf64_Phdr.viewN header.e_phnum (data.drop header.e_phoff)) with
              | panicked => simp only [hv] at hpn; exact PResult.noConfusion hpn
              | error e => simp only [hv] at hpn; exact PResult.noConfusion hpn
              | ok u =>
                simp only [hv, PResult.ok.injEq] at hpn
                rw [hpn]
                exact hmem
            · exact PResult.noConfusion hpn
          obtain ⟨b1, b2, b3⟩ := hview _ _ hmem2
          subst heq
          exact ⟨b1, b2, b3⟩

/-- Characterization of a successful `ProgramHeader::get_data` when the
header fields fit in `u64` (as all parsed headers do): the range cannot
have wrapped, it lies inside the buffer, and the returned slice is exactly
`data[file_offset .. file_offset + file_size]`. -/
theorem get_data_some {ph : ProgramHeader} {data d : Bytes}
    (hfo : ph.file_offset < U64MOD) (hfs : ph.file_size < U64MOD)
    (h : ph.get_data data = some d) :
    ph.file_offset + ph.file_size ≤ data.length ∧
      d = (data.drop ph.file_offset).take ph.file_size ∧ d.length = ph.file_size := by
  simp only [ProgramHeader.get_data] at h
  split at h
  next hcond =>
    obtain ⟨h1, h2⟩ := hcond
    simp only [Option.some.injEq] at h
    subst h
    have hstop : usizeAdd ph.file_offset ph.file_size = ph.file_offset + ph.file_size := by
      unfold usizeAdd
      rcases Nat.lt_or_ge (ph.file_offset + ph.file_size) U64MOD with hlt | hge
      · exact Nat.mod_eq_of_lt hlt
      · exfalso
        have hlt2 : ph.file_offset + ph.file_size < 2 * U64MOD := by omega
        have : (ph.file_offset + ph.file_size) % U64MOD =
            ph.file_offset + ph.file_size - U64MOD := by
          rw [Nat.mod_eq_sub_mod hge, Nat.mod_eq_of_lt (by omega)]
        rw [usizeAdd, this] at h1
        omega
    rw [hstop] at h1 h2
    refine ⟨h2, ?_, ?_⟩
    · rw [hstop]
      congr 1
      omega
    · rw [hstop]
      simp only [List.length_take, List.length_drop]
      omega
  next => exact Option.noConfusion h

/-- Characterization of a successful segment loop: one segment per header,
in order, with the checked size equality, the wrapped `vm_end` sum, and the
borrowed file range. -/
theorem segLoop_ok {data : Bytes} :
    ∀ {phs : List ProgramHeader} {segs : List Segment},
      (∀ ph ∈ phs, ph.file_offset < U64MOD ∧ ph.file_size < U64MOD) →
      segLoop data phs = .ok segs →
      segs.length = phs.length ∧
        ∀ i (h1 : i < segs.length) (h2 : i < phs.length),
          (segs.get ⟨i, h1⟩).vm_start = (phs.get ⟨i, h2⟩).memory_address ∧
          (segs.get ⟨i, h1⟩).vm_end =
            usizeAdd (phs.get ⟨i, h2⟩).memory_address (phs.get ⟨i, h2⟩).memory_size ∧
          (phs.get ⟨i, h2⟩).memory_size = (phs.get ⟨i, h2⟩).file_size ∧
          (phs.get ⟨i, h2⟩).file_offset + (phs.get ⟨i, h2⟩).file_size ≤ data.length ∧
          (segs.get ⟨i, h1⟩).data =
            (data.drop (phs.get ⟨i, h2⟩).file_offset).take (phs.get ⟨i, h2⟩).file_size ∧
          (segs.get ⟨i, h1⟩).data.length = (phs.get ⟨i, h2⟩).file_size := by
  intro phs
  induction phs with
  | nil =>
    intro segs hb h
    simp only [segLoop, Except.ok.injEq] at h
    subst h
    exact ⟨rfl, fun i h1 h2 => absurd h2 (by simp)⟩
  | cons ph phs ih =>
    intro segs hb h
    simp only [segLoop] at h
    split at h
    next => exact Except.noConfusion h
    next hsz =>
      cases hg : ph.get_data data with
      | none => simp only [hg] at h; exact Except.noConfusion h
      | some d =>
        simp only [hg] at h
        obtain ⟨segs0, hloop, hsegs⟩ := emap_ok h
        subst hsegs
        obtain ⟨hfo, hfs⟩ := hb ph (by simp)
        obtain ⟨hrange, hslice, hlen⟩ := get_data_some hfo hfs hg
        obtain ⟨hlen0, hidx⟩ := ih (fun q hq => hb q (by simp [hq])) hloop
        refine ⟨by simp [hlen0], ?_⟩
        intro i h1 h2
        cases i with
        | zero =>
          exact ⟨rfl, rfl, not_ne_iff.mp hsz, hrange, hslice, hlen⟩
        | succ j =>
          simp only [List.get_cons_succ]
          exact hidx j (by simpa using h1) (by simpa using h2)

/-- The `PT_LOAD` program headers of the container parsed from `data` (empty
when the container itself does not parse). -/
def elfLoads (data : Bytes) : List ProgramHeader :=
  match Elf.parse data with
  | .ok e => e.iter_program_headers PT_LOAD
  | _ => []

/-- **C4**: whenever the decoder returns a `Core`, the segments correspond
one-to-one and in order to the `PT_LOAD` program headers; each segment
satisfies `vm_end = (vm_start + data.len()) mod 2^64` (the Rust `usize`
equation `s.vm_end == s.vm_start + s.data.len()`), and its bytes are
exactly the sub-range `input[file_offset .. file_offset + file_size]` of
its header, which lies inside the input. -/
theorem claim_c4_segment_invariants (data : Bytes) (core : Core)
    (h : Core.parse data = .ok core) :
    core.segments.length = (elfLoads data).length ∧
      ∀ i (h1 : i < core.segments.length) (h2 : i < (elfLoads data).length),
        (core.segments.get ⟨i, h1⟩).vm_end =
          ((core.segments.get ⟨i, h1⟩).vm_start +
            (core.segments.get ⟨i, h1⟩).data.length) % U64MOD ∧
        ((elfLoads data).get ⟨i, h2⟩).type_ = PT_LOAD ∧
        ((elfLoads data).get ⟨i, h2⟩).file_offset + ((elfLoads data).get ⟨i, h2⟩).file_size ≤
          data.length ∧
        (core.segments.get ⟨i, h1⟩).data =
          (data.drop ((elfLoads data).get ⟨i, h2⟩).file_offset).take
            ((elfLoads data).get ⟨i, h2⟩).file_size := by
  obtain ⟨elf, he, hsegs, -, -, -⟩ := core_parse_ok_inv h
  obtain ⟨hdata, hbounds⟩ := elf_parse_ok_inv he
  have hloads : elfLoads data = elf.iter_program_headers PT_LOAD := by
    simp only [elfLoads, he]
  unfold extract_segments at hsegs
  rw [hdata] at hsegs
  have hbl : ∀ ph ∈ elf.iter_program_headers PT_LOAD,
      ph.file_offset < U64MOD ∧ ph.file_size < U64MOD := by
    intro ph hph
    have hmem : ph ∈ elf.program_headers := List.mem_of_mem_filter hph
    exact ⟨(hbounds ph hmem).1, (hbounds ph hmem).2.1⟩
  obtain ⟨hlen, hidx⟩ := segLoop_ok hbl hsegs
  rw [hloads]
  refine ⟨hlen, ?_⟩
  intro i h1 h2
  obtain ⟨hvs, hve, hms, hrange, hslice, hdl⟩ := hidx i h1 h2
  have htype : ((elf.iter_program_headers PT_LOAD).get ⟨i, h2⟩).type_ = PT_LOAD := by
    have hm := List.get_mem (elf.iter_program_headers PT_LOAD) i h2
    unfold Elf.iter_program_headers at hm
    have := List.mem_filter.mp hm
    simpa using this.2
  refine ⟨?_, htype, hrange, hslice⟩
  rw [hve, hvs, hdl, hms]
  rfl

/-- **C4** at the concrete sample dump: one segment, matching the single
`PT_LOAD` header, with `vm_end = 0x1004 = (0x1000 + 4) mod 2^64`. -/
theorem claim_c4_witness :
    Core.parse sampleCoreBuf = .ok sampleCoreVal ∧
      sampleCoreVal.segments.length = (elfLoads sampleCoreBuf).length ∧
      sampleCoreVal.segments.length = 1 := by
  have hp : Core.parse sampleCoreBuf = .ok sampleCoreVal := by decide
  exact ⟨hp, (claim_c4_segment_invariants sampleCoreBuf sampleCoreVal hp).1, by decide⟩

/-- The `CORE`/`NT_PRSTATUS` description slices of the container parsed
from `data` (empty when the container does not parse). -/
def prstatusDescs (data : Bytes) : List Bytes :=
  match Elf.parse data with
  | .ok e => e.iter_notes coreName NT_PRSTATUS
  | _ => []

/-- The thread collector decodes each description slice in order. -/
theorem collectThreads_ok :
    ∀ {ds : List Bytes} {ts : List ThreadInfo}, collectThreads ds = .ok ts →
      ts.length = ds.length ∧
        ∀ i (h1 : i < ds.length) (h2 : i < ts.length),
          emap ThreadInfo.ofPrstatus (elf_prstatus.parse (ds.get ⟨i, h1⟩)) =
            .ok (ts.get ⟨i, h2⟩) := by
  intro ds
  induction ds with
  | nil =>
    intro ts h
    simp only [collectThreads, Except.ok.injEq] at h
    subst h
    exact ⟨rfl, fun i h1 h2 => absurd h1 (by simp)⟩
  | cons d ds ih =>
    intro ts h
    simp only [collectThreads] at h
    cases hp : elf_prstatus.parse d with
    | error e => simp only [hp] at h; exact Except.noConfusion h
    | ok st =>
      simp only [hp] at h
      obtain ⟨ts0, hrest, hts⟩ := emap_ok h
      subst hts
      obtain ⟨hlen, hidx⟩ := ih hrest
      refine ⟨by simp [hlen], ?_⟩
      intro i h1 h2
      cases i with
      | zero => simp [hp, emap]
      | succ j =>
        simp only [List.get_cons_succ]
        exact hidx j (by simpa using h1) (by simpa using h2)

/-- **C6**: when the decoder returns a `Core`, `threads` is exactly the
in-order list of decodes of the `"CORE"`/`NT_PRSTATUS` note descriptions
(encounter order across all `PT_NOTE` segments): `threads[i]` is the decode
of the `(i+1)`-th such description; and the absence of such notes is not an
error — the thread extractor returns the empty list. -/
theorem claim_c6_thread_order :
    (∀ (data : Bytes) (core : Core), Core.parse data = .ok core →
      core.threads.length = (prstatusDescs data).length ∧
        ∀ i (h1 : i < (prstatusDescs data).length) (h2 : i < core.threads.length),
          emap ThreadInfo.ofPrstatus (elf_prstatus.parse ((prstatusDescs data).get ⟨i, h1⟩)) =
            .ok (core.threads.get ⟨i, h2⟩)) ∧
      ∀ elf : Elf, elf.iter_notes coreName NT_PRSTATUS = [] →
        extract_thread_infos elf = .ok [] := by
  constructor
  · intro data core h
    obtain ⟨elf, he, -, -, hthreads, -⟩ := core_parse_ok_inv h
    have hdescs : prstatusDescs data = elf.iter_notes coreName NT_PRSTATUS := by
      simp only [prstatusDescs, he]
    unfold extract_thread_infos at hthreads
    obtain ⟨hlen, hidx⟩ := collectThreads_ok hthreads
    rw [hdescs]
    exact ⟨hlen, fun i h1 h2 => hidx i h1 h2⟩
  · intro elf h
    unfold extract_thread_infos
    rw [h]
    rfl

/-- **C6** at concrete inputs: the sample dump's single `PRSTATUS` note
becomes its single thread, and a container without such notes yields the
empty thread list without an error. -/
theorem claim_c6_witness :
    Core.parse sampleCoreBuf = .ok sampleCoreVal ∧
      sampleCoreVal.threads.length = (prstatusDescs sampleCoreBuf).length ∧
      sampleCoreVal.threads.length = 1 ∧
      extract_thread_infos emptyElf = .ok [] := by
  have hp : Core.parse sampleCoreBuf = .ok sampleCoreVal := by decide
  exact ⟨hp, (claim_c6_thread_order.1 sampleCoreBuf sampleCoreVal hp).1, by decide,
    claim_c6_thread_order.2 emptyElf (by decide)⟩

/-- Inversion of a successful `read_u64`. -/
theorem readU64_some {d : Bytes} {v : Nat} {r : Bytes} (h : readU64 d = some (v, r)) :
    8 ≤ d.length ∧ v = u64At d 0 ∧ r = d.drop 8 := by
  unfold readU64 at h
  cases hs : readSlice 8 d with
  | none => simp only [hs] at h; exact Option.noConfusion h
  | some p =>
    obtain ⟨s, rr⟩ := p
    obtain ⟨hb, hsx, hrx⟩ := readSlice_some hs
    simp only [hs, Option.map_some', Option.some.injEq, Prod.mk.injEq] at h
    obtain ⟨hv, hr⟩ := h
    subst hv hr hsx hrx
    refine ⟨hb, ?_, rfl⟩
    simp [u64At, lePick]

/-- The `NT_FILE` description slice an ELF container offers, if any. -/
def ntfileDescOf (elf : Elf) : Bytes := (elf.get_note coreName NT_FILE).getD []

/-- The `NT_FILE` description slice of the container parsed from `data`. -/
def ntfileDesc (data : Bytes) : Bytes :=
  match Elf.parse data with
  | .ok e => ntfileDescOf e
  | _ => []

/-- The entry loop reads `count` triples of `u64`s in order; entry `i`
takes its three fields from offset `24 i`, with the `file_offset` the
wrapped product of its `page_idx` and the note's page size. -/
theorem readEntries_ok {ps : Nat} :
    ∀ {count : Nat} {d : Bytes} {ms : List FileMapping} {rest : Bytes},
      readEntries ps count d = some (ms, rest) →
      ms.length = count ∧ rest = d.drop (24 * count) ∧ 24 * count ≤ d.length ∧
        ∀ i (_h1 : i < count) (h2 : i < ms.length),
          (ms.get ⟨i, h2⟩).vm_start = u64At d (24 * i) ∧
          (ms.get ⟨i, h2⟩).vm_end = u64At d (24 * i + 8) ∧
          (ms.get ⟨i, h2⟩).file_offset = u64Mul (u64At d (24 * i + 16)) ps := by
  intro count
  induction count with
  | zero =>
    intro d ms rest h
    simp only [readEntries, Option.some.injEq, Prod.mk.injEq] at h
    obtain ⟨hms, hrest⟩ := h
    subst hms hrest
    exact ⟨rfl, by simp, by simp, fun i h1 h2 => absurd h1 (by omega)⟩
  | succ n ih =>
    intro d ms rest h
    simp only [readEntries] at h
    cases h1 : readU64 d with
    | none => simp only [h1] at h; exact Option.noConfusion h
    | some p1 =>
      obtain ⟨vs, d1⟩ := p1
      obtain ⟨hb1, hvs, hd1⟩ := readU64_some h1
      simp only [h1] at h
      cases h2 : readU64 d1 with
      | none => simp only [h2] at h; exact Option.noConfusion h
      | some p2 =>
        obtain ⟨ve, d2⟩ := p2
        obtain ⟨hb2, hve, hd2⟩ := readU64_some h2
        simp only [h2] at h
        cases h3 : readU64 d2 with
        | none => simp only [h3] at h; exact Option.noConfusion h
        | some p3 =>
          obtain ⟨pi, d3⟩ := p3
          obtain ⟨hb3, hpi, hd3⟩ := readU64_some h3
          simp only [h3] at h
          cases h4 : readEntries ps n d3 with
          | none => simp only [h4] at h; exact Option.noConfusion h
          | some p4 =>
            obtain ⟨ms0, rest0⟩ := p4
            simp only [h4, Option.some.injEq, Prod.mk.injEq] at h
            obtain ⟨hms, hrest⟩ := h
            subst hms hrest hd1 hd2 hd3
            obtain ⟨hlen0, hrest0, hle0, hidx0⟩ := ih h4
            simp only [List.drop_drop] at hb2 hb3 hrest0 hle0 hidx0 ⊢
            have hdlen : 24 ≤ d.length := by
              simp only [List.length_drop] at hb2 hb3
              omega
            refine ⟨by simp [hlen0], ?_, ?_, ?_⟩
            · rw [hrest0]
              congr 1
              omega
            · simp only [List.length_drop] at hle0
              omega
            · intro i hi1 hi2
              cases i with
              | zero =>
                subst hvs hve hpi
                refine ⟨by norm_num, ?_, ?_⟩
                · show u64At (List.drop 8 d) 0 = u64At d (24 * 0 + 8)
                  rw [u64At_drop]
                · show u64Mul (u64At (List.drop 8 (List.drop 8 d)) 0) ps =
                      u64Mul (u64At d (24 * 0 + 16)) ps
                  rw [u64At_drop, u64At_drop]
              | succ j =>
                simp only [List.get_cons_succ]
                obtain ⟨ha, hb, hc⟩ := hidx0 j (by omega) (by simpa using hi2)
                rw [u64At_drop] at ha hb hc
                refine ⟨?_, ?_, ?_⟩
                · rw [ha]; congr 1; omega
                · rw [hb]; congr 1; omega
                · rw [hc]; congr 2; omega

/-- Path assignment keeps every numeric field and the list order; it only
fills in the paths. -/
theorem assignPaths_some :
    ∀ {ms : List FileMapping} {toks : List Bytes} {ms2 : List FileMapping},
      assignPaths ms toks = some ms2 →
      ms2.length = ms.length ∧
        ∀ i (h1 : i < ms2.length) (h2 : i < ms.length),
          (ms2.get ⟨i, h1⟩).vm_start = (ms.get ⟨i, h2⟩).vm_start ∧
          (ms2.get ⟨i, h1⟩).vm_end = (ms.get ⟨i, h2⟩).vm_end ∧
          (ms2.get ⟨i, h1⟩).file_offset = (ms.get ⟨i, h2⟩).file_offset := by
  intro ms
  induction ms with
  | nil =>
    intro toks ms2 h
    simp only [assignPaths, Option.some.injEq] at h
    subst h
    exact ⟨rfl, fun i h1 h2 => absurd h2 (by simp)⟩
  | cons m ms ih =>
    intro toks ms2 h
    cases toks with
    | nil => exact Option.noConfusion h
    | cons t ts =>
      simp only [assignPaths] at h
      cases ha : assignPaths ms ts with
      | none => simp only [ha] at h; exact Option.noConfusion h
      | some r =>
        simp only [ha, Option.map_some', Option.some.injEq] at h
        subst h
        obtain ⟨hlen, hidx⟩ := ih ha
        refine ⟨by simp [hlen], ?_⟩
        intro i h1 h2
        cases i with
        | zero => exact ⟨rfl, rfl, rfl⟩
        | succ j =>
          simp only [List.get_cons_succ]
          exact hidx j (by simpa using h1) (by simpa using h2)

/-- Inversion of a successful `extract_file_map`: the mapping count is the
note's declared `count`, and entry `i` carries the `u64`s at offsets
`16 + 24 i` of the description, with `file_offset` the wrapped product of
its `page_idx` and the declared page size. -/
theorem extract_file_map_ok {elf : Elf} {fm : List FileMapping}
    (h : extract_file_map elf = .ok fm) :
    fm.length = u64At (ntfileDescOf elf) 0 ∧
      ∀ i (h2 : i < fm.length),
        (fm.get ⟨i, h2⟩).vm_start = u64At (ntfileDescOf elf) (16 + 24 * i) ∧
        (fm.get ⟨i, h2⟩).vm_end = u64At (ntfileDescOf elf) (16 + 24 * i + 8) ∧
        (fm.get ⟨i, h2⟩).file_offset =
          u64Mul (u64At (ntfileDescOf elf) (16 + 24 * i + 16)) (u64At (ntfileDescOf elf) 8) := by
  unfold extract_file_map at h
  cases hn : elf.get_note coreName NT_FILE with
  | none => simp only [hn] at h; exact Except.noConfusion h
  | some d =>
    simp only [hn] at h
    have hd : ntfileDescOf elf = d := by rw [ntfileDescOf, hn]; rfl
    rw [hd]
    cases h1 : readU64 d with
    | none => simp only [h1] at h; exact Except.noConfusion h
    | some p1 =>
      obtain ⟨count, d1⟩ := p1
      obtain ⟨hb1, hcount, hd1⟩ := readU64_some h1
      simp only [h1] at h
      cases h2 : readU64 d1 with
      | none => simp only [h2] at h; exact Except.noConfusion h
      | some p2 =>
        obtain ⟨ps, d2⟩ := p2
        obtain ⟨hb2, hps, hd2⟩ := readU64_some h2
        simp only [h2] at h
        cases h3 : readEntries ps count d2 with
        | none => simp only [h3] at h; exact Except.noConfusion h
        | some p3 =>
          obtain ⟨ms, rest⟩ := p3
          simp only [h3] at h
          cases h4 : assignPaths ms (splitOnZero rest) with
          | none => simp only [h4] at h; exact Except.noConfusion h
          | some fm2 =>
            simp only [h4, Except.ok.injEq] at h
            subst h
            obtain ⟨hlen3, -, -, hidx3⟩ := readEntries_ok h3
            obtain ⟨hlen4, hidx4⟩ := assignPaths_some h4
            subst hd1 hd2 hcount hps
            simp only [List.drop_drop] at hidx3
            rw [u64At_drop] at hidx3
            constructor
            · rw [hlen4, hlen3]
            · intro i hi
              have hi3 : i < ms.length := by omega
              have hic : i < u64At d 0 := by omega
              obtain ⟨ha, hb, hc⟩ := hidx4 i hi hi3
              obtain ⟨ha3, hb3, hc3⟩ := hidx3 i (by omega) hi3
              rw [u64At_drop] at ha3 hb3 hc3
              refine ⟨by rw [ha, ha3], ?_, ?_⟩
              · rw [hb, hb3]
                have e1 : 8 + 8 + (24 * i + 8) = 16 + 24 * i + 8 := by omega
                rw [e1]
              · rw [hc, hc3]
                have e2 : 8 + 8 + (24 * i + 16) = 16 + 24 * i + 16 := by omega
                have e3 : 8 + 0 = 8 := by omega
                rw [e2, e3]

/-- **C5, counterexample**: `overflowCoreBuf` is a well-formed core dump
whose `NT_FILE` note has `page_size = 3` and
`page_idx = 6148914691236517206`; the `u64` product is `2^64 + 2`, which
wraps to `2`, so the decoded `file_offset` is `2` — not the mathematical
product, and not a multiple of the page size `3`. -/
theorem claim_c5_counterexample :
    PResult.map Core.file_map (Core.parse overflowCoreBuf) =
        .ok [{ vm_start := 0, vm_end := 0, file_offset := 2, file_path := [0x61] }] ∧
      u64At (ntfileDesc overflowCoreBuf) 8 = 3 ∧
      u64At (ntfileDesc overflowCoreBuf) 32 = 6148914691236517206 ∧
      ¬ (3 : Nat) ∣ 2 ∧ (2 : Nat) ≠ 6148914691236517206 * 3 := by
  exact ⟨by decide, by decide, by decide, by decide, by decide⟩

/-- **C5, amended**: in every successful parse the file map has exactly the
note's declared `count` entries, in note order (entry `i` carries the
`vm_start`/`vm_end` `u64`s at offset `16 + 24 i` of the description), and
`file_offset = (page_idx * page_size) mod 2^64` — the Rust `u64` product.
Whenever that product does not overflow (`page_idx * page_size < 2^64`),
`file_offset` equals the exact product and is therefore an exact multiple
of `page_size`. -/
theorem claim_c5_file_offsets (data : Bytes) (core : Core)
    (h : Core.parse data = .ok core) :
    core.file_map.length = u64At (ntfileDesc data) 0 ∧
      ∀ i (hi : i < core.file_map.length),
        (core.file_map.get ⟨i, hi⟩).vm_start = u64At (ntfileDesc data) (16 + 24 * i) ∧
        (core.file_map.get ⟨i, hi⟩).vm_end = u64At (ntfileDesc data) (16 + 24 * i + 8) ∧
        (core.file_map.get ⟨i, hi⟩).file_offset =
          (u64At (ntfileDesc data) (16 + 24 * i + 16) * u64At (ntfileDesc data) 8) % U64MOD ∧
        (u64At (ntfileDesc data) (16 + 24 * i + 16) * u64At (ntfileDesc data) 8 < U64MOD →
          (core.file_map.get ⟨i, hi⟩).file_offset =
            u64At (ntfileDesc data) (16 + 24 * i + 16) * u64At (ntfileDesc data) 8 ∧
          u64At (ntfileDesc data) 8 ∣ (core.file_map.get ⟨i, hi⟩).file_offset) := by
  obtain ⟨elf, he, -, -, -, hfm⟩ := core_parse_ok_inv h
  have hdesc : ntfileDesc data = ntfileDescOf elf := by
    simp only [ntfileDesc, he]
  rw [hdesc]
  obtain ⟨hlen, hidx⟩ := extract_file_map_ok hfm
  refine ⟨hlen, ?_⟩
  intro i hi
  obtain ⟨ha, hb, hc⟩ := hidx i hi
  refine ⟨ha, hb, hc, ?_⟩
  intro hov
  have hexact : (core.file_map.get ⟨i, hi⟩).file_offset =
      u64At (ntfileDescOf elf) (16 + 24 * i + 16) * u64At (ntfileDescOf elf) 8 := by
    rw [hc]
    unfold u64Mul
    exact Nat.mod_eq_of_lt hov
  refine ⟨hexact, ?_⟩
  rw [hexact]
  exact dvd_mul_left _ _

/-- **C5, amended** at the sample dump: three entries in note order with
offsets `3 * 0x1000`, `5 * 0x1000`, `7 * 0x1000` (no overflow, so exact
multiples of the page size). -/
theorem claim_c5_witness :
    Core.parse sampleCoreBuf = .ok sampleCoreVal ∧
      sampleCoreVal.file_map.length = u64At (ntfileDesc sampleCoreBuf) 0 ∧
      sampleCoreVal.file_map.length = 3 := by
  have hp : Core.parse sampleCoreBuf = .ok sampleCoreVal := by decide
  exact ⟨hp, (claim_c5_file_offsets sampleCoreBuf sampleCoreVal hp).1, by decide⟩

/-- A successful segment loop forces every header's sizes to agree. -/
theorem segLoop_ok_sizes {data : Bytes} :
    ∀ {phs : List ProgramHeader} {segs : List Segment},
      segLoop data phs = .ok segs → ∀ ph ∈ phs, ph.memory_size = ph.file_size := by
  intro phs
  induction phs with
  | nil => intro segs h ph hph; simp at hph
  | cons p ps ih =>
    intro segs h ph hph
    simp only [segLoop] at h
    split at h
    next => exact Except.noConfusion h
    next hsz =>
      cases hg : p.get_data data with
      | none => simp only [hg] at h; exact Except.noConfusion h
      | some d =>
        simp only [hg] at h
        obtain ⟨segs0, hloop, -⟩ := emap_ok h
        rcases List.mem_cons.mp hph with heq | hmem
        · subst heq
          exact not_ne_iff.mp hsz
        · exact ih hloop ph hmem

/-- The segment loop reports the size mismatch of the first offending
header, provided every earlier `PT_LOAD` header passes both of its checks. -/
theorem segLoop_first_mismatch {data : Bytes} :
    ∀ (good : List ProgramHeader) (ph : ProgramHeader) (rest : List ProgramHeader),
      (∀ q ∈ good, q.memory_size = q.file_size ∧ (q.get_data data).isSome = true) →
      ph.file_size ≠ ph.memory_size →
      segLoop data (good ++ ph :: rest) =
        .error (.sizeMismatch ph.file_size ph.memory_size) := by
  intro good
  induction good with
  | nil =>
    intro ph rest hgood hne
    simp only [List.nil_append, segLoop]
    rw [if_pos (Ne.symm hne)]
  | cons q qs ih =>
    intro ph rest hgood hne
    obtain ⟨hq1, hq2⟩ := hgood q (by simp)
    simp only [List.cons_append, segLoop]
    rw [if_neg (not_ne_iff.mpr hq1)]
    cases hg : q.get_data data with
    | none => rw [hg] at hq2; simp [Option.isSome] at hq2
    | some d =>
      show emap (fun x => ({ vm_start := q.memory_address, vm_end := usizeAdd q.memory_address q.memory_size, data := d } : Segment) :: x) (segLoop data (qs ++ ph :: rest)) = _
      rw [ih ph rest (fun r hr => hgood r (by simp [hr])) hne]
      rfl

/-- **C7, amended**: a `PT_LOAD` header whose file size differs from its
memory size always prevents the decoder from returning a `Core`; the
reported error is the "segment file size (…) differs from memory size (…)"
message whenever the offending header is the first `PT_LOAD` header to fail
a check — an earlier `PT_LOAD` header with an invalid file range fails
first with its own error (see the counterexample). -/
theorem claim_c7_size_mismatch :
    (∀ (data : Bytes) (elf : Elf), Elf.parse data = .ok elf →
      (∃ ph ∈ elf.program_headers, ph.type_ = PT_LOAD ∧ ph.file_size ≠ ph.memory_size) →
      (Core.parse data).isOk = false) ∧
      ∀ (elf : Elf) (good : List ProgramHeader) (ph : ProgramHeader)
        (rest : List ProgramHeader),
        elf.program_headers.filter (fun q => q.type_ == PT_LOAD) = good ++ ph :: rest →
        (∀ q ∈ good, q.memory_size = q.file_size ∧ (q.get_data elf.data).isSome = true) →
        ph.file_size ≠ ph.memory_size →
        extract_segments elf = .error (.sizeMismatch ph.file_size ph.memory_size) := by
  constructor
  · intro data elf he hex
    obtain ⟨ph, hmem, htype, hne⟩ := hex
    cases hc : Core.parse data with
    | panicked => rfl
    | error e => rfl
    | ok core =>
      exfalso
      obtain ⟨elf2, he2, hsegs, -, -, -⟩ := core_parse_ok_inv hc
      rw [he] at he2
      simp only [PResult.ok.injEq] at he2
      subst he2
      unfold extract_segments at hsegs
      have hall := segLoop_ok_sizes hsegs ph ?_
      · exact hne hall.symm
      · unfold Elf.iter_program_headers
        exact List.mem_filter.mpr ⟨hmem, by simp [htype]⟩
  · intro elf good ph rest hsplit hgood hne
    unfold extract_segments Elf.iter_program_headers
    rw [hsplit]
    exact segLoop_first_mismatch good ph rest hgood hne

/-- The ELF container parsed from `rangeCoreBuf`. -/
def rangeElf : Elf :=
  { program_headers :=
      [{ type_ := 1
         file_offset := 100000
         file_size := 1
         memory_address := 0
         memory_size := 1 },
       { type_ := 1
         file_offset := 0
         file_size := 0x10
         memory_address := 0
         memory_size := 0x20 }]
    notes := []
    data := rangeCoreBuf }

/-- **C7, counterexample**: `rangeCoreBuf` contains a `PT_LOAD` header with
`p_filesz = 0x10 ≠ p_memsz = 0x20`, yet the decoder's error is *not* the
size-mismatch message: the preceding `PT_LOAD` header's out-of-bounds file
range fails first with "program header has invalid file range". -/
theorem claim_c7_counterexample :
    Elf.parse rangeCoreBuf = .ok rangeElf ∧
      ({ type_ := 1, file_offset := 0, file_size := 0x10, memory_address := 0,
         memory_size := 0x20 } : ProgramHeader) ∈ rangeElf.program_headers ∧
      (0x10 : Nat) ≠ 0x20 ∧
      Core.parse rangeCoreBuf =
        .error (.invalidFileRange
          { type_ := 1, file_offset := 100000, file_size := 1, memory_address := 0,
            memory_size := 1 }) := by
  exact ⟨by decide, by decide, by decide, by decide⟩

/-- **C7, amended** at the concrete dump with a single mismatched `PT_LOAD`
header: the decoder fails, with exactly the size-mismatch error. -/
theorem claim_c7_witness :
    (Core.parse mismatchCoreBuf).isOk = false ∧
      extract_segments mismatchElf = .error (.sizeMismatch 0x10 0x20) := by
  constructor
  · exact claim_c7_size_mismatch.1 mismatchCoreBuf mismatchElf (by decide)
      ⟨{ type_ := 1, file_offset := 0, file_size := 0x10, memory_address := 0,
         memory_size := 0x20 }, by decide, by decide, by decide⟩
  · exact claim_c7_size_mismatch.2 mismatchElf []
      { type_ := 1, file_offset := 0, file_size := 0x10, memory_address := 0,
        memory_size := 0x20 } [] (by decide)
      (fun q hq => absurd hq (by simp)) (by decide)

end Licore
